import Mathlib

/-!
Verification of the srf static file server (src/server.js) against its
specification.  The JavaScript code is shallowly embedded: strings are
modelled as Lean `String`/`List Char`, file bytes as `List Nat`, the
filesystem and the platform date functions as explicit parameters, and the
request handler as a pure function from a request and a filesystem model to
a response plan (status, headers in insertion order, body bytes).
-/

namespace Srf

/-! ### Character-list utilities modelling JS string primitives -/

/-- Models JS `String.prototype.split(sep)` for a one-character separator. -/
def splitOnChar (sep : Char) : List Char → List (List Char)
  | [] => [[]]
  | c :: cs =>
    let r := splitOnChar sep cs
    if c = sep then [] :: r
    else (c :: r.headD []) :: r.tail

/-- Splitting on a character class (used for the URL path, where both `/`
and `\` separate segments). -/
def splitOnPred (p : Char → Bool) : List Char → List (List Char)
  | [] => [[]]
  | c :: cs =>
    let r := splitOnPred p cs
    if p c then [] :: r
    else (c :: r.headD []) :: r.tail

/-- Models JS `Array.prototype.join` with a one-character separator. -/
def joinWith (sep : Char) : List (List Char) → List Char
  | [] => []
  | [x] => x
  | x :: y :: t => x ++ sep :: joinWith sep (y :: t)

/-- Whitespace recognised by the model of JS `trim` / `Number` coercion. -/
def isWs (c : Char) : Bool := c = ' ' || c = '\t' || c = '\n' || c = '\r'

/-- Models JS `String.prototype.trim` (on the common ASCII whitespace). -/
def trimChars (cs : List Char) : List Char :=
  ((cs.dropWhile isWs).reverse.dropWhile isWs).reverse

/-- Decimal digit test. -/
def isDig (c : Char) : Bool := 48 ≤ c.toNat && c.toNat ≤ 57

/-- Value of a decimal digit string, `none` if empty or not all digits. -/
def digitsVal? (cs : List Char) : Option Nat :=
  if cs ≠ [] ∧ cs.all isDig then
    some (cs.foldl (fun a c => 10 * a + (c.toNat - 48)) 0)
  else none

/-- Models JS `Number(s)` on the integer-literal fragment relevant to the
Range parser: optional sign plus decimal digits, empty or whitespace-only
strings coerce to `0`; every other input is NaN (`none`).  (Fractional,
hexadecimal and exponent literals are not modelled; the server's spec and
tests only exercise integer range bounds.) -/
def jsNumberL (cs : List Char) : Option Int :=
  let t := trimChars cs
  if t = [] then some 0
  else
    match t with
    | '-' :: ds => (digitsVal? ds).map (fun n => -(n : Int))
    | '+' :: ds => (digitsVal? ds).map (fun n => (n : Int))
    | ds => (digitsVal? ds).map (fun n => (n : Int))

def jsNumber (s : String) : Option Int := jsNumberL s.data

/-! ### Percent decoding (JS `decodeURIComponent`) -/

/-- Value of a hexadecimal digit character. -/
def hexVal (c : Char) : Option Nat :=
  if '0' ≤ c ∧ c ≤ '9' then some (c.toNat - '0'.toNat)
  else if 'a' ≤ c ∧ c ≤ 'f' then some (c.toNat - 'a'.toNat + 10)
  else if 'A' ≤ c ∧ c ≤ 'F' then some (c.toNat - 'A'.toNat + 10)
  else none

/-- Value of a two-hex-digit escape body. -/
def hex2 (a b : Char) : Option Nat :=
  match hexVal a, hexVal b with
  | some x, some y => some (16 * x + y)
  | _, _ => none

/-- First pass of the `decodeURIComponent` model: each `%XY` escape becomes
an escape byte (`Sum.inr`), every other character passes through
(`Sum.inl`); an incomplete or non-hexadecimal escape throws (`none`). -/
def pctTokens : List Char → Option (List (Char ⊕ Nat))
  | [] => some []
  | c :: cs =>
    if c = '%' then
      match cs with
      | h1 :: h2 :: rest =>
        match hex2 h1 h2 with
        | some b => (pctTokens rest).map (Sum.inr b :: ·)
        | none => none
      | _ => none
    else (pctTokens cs).map (Sum.inl c :: ·)

/-- Second pass of the `decodeURIComponent` model: escape bytes must form
valid shortest-form, non-surrogate UTF-8 sequences (continuation bytes must
themselves be escape bytes), exactly as in the ECMA-262 Decode algorithm.
The state is the number of continuation bytes still expected, the smallest
code point the current sequence may produce (rejecting overlong forms), and
the partial code point. -/
def utf8Fold (need minCp acc : Nat) : List (Char ⊕ Nat) → Option (List Char)
  | [] => if need = 0 then some [] else none
  | t :: rest =>
    if need = 0 then
      match t with
      | Sum.inl c => (utf8Fold 0 0 0 rest).map (c :: ·)
      | Sum.inr b =>
        if b < 0x80 then (utf8Fold 0 0 0 rest).map (Char.ofNat b :: ·)
        else if b < 0xC0 then none
        else if b < 0xE0 then utf8Fold 1 0x80 (b - 0xC0) rest
        else if b < 0xF0 then utf8Fold 2 0x800 (b - 0xE0) rest
        else if b < 0xF8 then utf8Fold 3 0x10000 (b - 0xF0) rest
        else none
    else
      match t with
      | Sum.inr b =>
        if 0x80 ≤ b ∧ b < 0xC0 then
          if need = 1 then
            let cp := acc * 0x40 + (b - 0x80)
            if minCp ≤ cp ∧ ¬ (0xD800 ≤ cp ∧ cp ≤ 0xDFFF) ∧ cp ≤ 0x10FFFF then
              (utf8Fold 0 0 0 rest).map (Char.ofNat cp :: ·)
            else none
          else utf8Fold (need - 1) minCp (acc * 0x40 + (b - 0x80)) rest
        else none
      | Sum.inl _ => none

/-- Models JS `decodeURIComponent`: a single percent-decoding pass (the two
phases above composed). -/
def decodeChars (cs : List Char) : Option (List Char) :=
  (pctTokens cs).bind (utf8Fold 0 0 0)

def decodeURIComponent (s : String) : Option String :=
  (decodeChars s.data).map String.mk

/-! ### Path resolution (Node `path` on POSIX) and `safeJoin` -/

/-- One step of lexical path normalization: empty and `.` segments are
dropped, `..` pops, anything else is appended. -/
def normStep (acc : List (List Char)) (s : List Char) : List (List Char) :=
  if s = [] ∨ s = ['.'] then acc
  else if s = ['.', '.'] then acc.dropLast
  else acc ++ [s]

def normSegs (segs : List (List Char)) : List (List Char) :=
  segs.foldl normStep []

/-- Renders an absolute path from its normalized segments (`/` if none). -/
def renderAbs (parts : List (List Char)) : List Char :=
  '/' :: joinWith '/' parts

/-- Models Node `path.resolve(root, rel)` on POSIX for an absolute `root`
and a relative `rel` (the only way `safeJoin` calls it): join with `/` and
normalize `.`/`..`/empty segments lexically, clipping `..` at the
filesystem root. -/
def pathResolve (root rel : String) : String :=
  String.mk (renderAbs (normSegs (splitOnChar '/' root.data ++ splitOnChar '/' rel.data)))

/-- Models Node `path.join(a, b)` for an absolute `a` (as used by the
handler to form `index.html` paths); coincides with `pathResolve` there. -/
def pathJoin (a b : String) : String := pathResolve a b

def stripNul (cs : List Char) : List Char := cs.filter (fun c => c != '\x00')

/-- Direct embedding of `safeJoin` (src/server.js lines 119-132): decode the
request path once (a failed decode is replaced by `/`), strip NUL bytes,
resolve `'.' + decoded` against the root, and accept exactly when the
resolved string starts with the root string (`String.prototype.startsWith`,
a plain string-prefix test). -/
def safeJoin (root requestPath : String) : Option String :=
  let decoded :=
    match decodeURIComponent requestPath with
    | some d => d
    | none => "/"
  let decoded := String.mk (stripNul decoded.data)
  let resolved := pathResolve root ("." ++ decoded)
  if root.data.isPrefixOf resolved.data then some resolved else none

/-- Normalized path components of a path string. -/
def pathSegs (s : String) : List (List Char) :=
  normSegs (splitOnChar '/' s.data)

/-- Spec-side containment: `p` equals `root` or is a path-component
descendant of it (the root's component list is a prefix of `p`'s). -/
def isUnderB (root p : String) : Bool :=
  (pathSegs root).isPrefixOf (pathSegs p)

/-- C1: the spec requires every path accepted by `safeJoin` to equal the
served root or be a path-component descendant of it, so in particular a
sibling such as `/r-evil` of root `/r` must be rejected.  The code's plain
string-prefix containment check violates this: under root `/r` the request
path `/../r-evil` is accepted and resolves to the sibling `/r-evil`,
outside the root. -/
theorem C1_safeJoin_accepts_sibling_escape :
    safeJoin "/r" "/../r-evil" = some "/r-evil" ∧ isUnderB "/r" "/r-evil" = false := by
  decide

/-! ### HTML escaping, URI encoding, UTF-8 -/

/-- Per-character expansion used by `escapeHtml` (the object literal in
src/server.js line 183). -/
def escapeChar (c : Char) : List Char :=
  if c = '&' then "&amp;".data
  else if c = '<' then "&lt;".data
  else if c = '>' then "&gt;".data
  else if c = '"' then "&quot;".data
  else if c = '\'' then "&#39;".data
  else [c]

/-- Direct embedding of `escapeHtml` (src/server.js lines 182-184): global
replacement of the five HTML-special characters by entities. -/
def escapeHtml (s : String) : String :=
  String.mk ((s.data.map escapeChar).flatten)

/-- Uppercase hexadecimal digit (table form of JS `toString(16).toUpperCase`
as it appears inside percent-escapes). -/
def hexDigitU (n : Nat) : Char := "0123456789ABCDEF".data.getD n '0'

/-- Percent-escape of one byte. -/
def pctEnc (b : Nat) : List Char := ['%', hexDigitU (b / 16), hexDigitU (b % 16)]

/-- UTF-8 bytes of one character (standard shortest-form encoder). -/
def utf8BytesOfChar (c : Char) : List Nat :=
  let n := c.toNat
  if n < 0x80 then [n]
  else if n < 0x800 then [0xC0 + n / 0x40, 0x80 + n % 0x40]
  else if n < 0x10000 then
    [0xE0 + n / 0x1000, 0x80 + (n / 0x40) % 0x40, 0x80 + n % 0x40]
  else
    [0xF0 + n / 0x40000, 0x80 + (n / 0x1000) % 0x40, 0x80 + (n / 0x40) % 0x40, 0x80 + n % 0x40]

/-- UTF-8 bytes of a string (models what Node sends for a JS string body,
and `Buffer.byteLength` via `List.length`). -/
def utf8Bytes (s : String) : List Nat :=
  (s.data.map utf8BytesOfChar).flatten

/-- Characters that JS `encodeURI` leaves unescaped (unreserved plus
reserved plus `#`). -/
def uriAllowed (c : Char) : Bool :=
  c.isAlphanum ||
    c ∈ [';', ',', '/', '?', ':', '@', '&', '=', '+', '$', '-', '_', '.', '!', '~', '*', '\'', '(', ')', '#']

/-- Models JS `encodeURI`: percent-escapes the UTF-8 bytes of every
character outside `uriAllowed`. -/
def encodeURI (s : String) : String :=
  String.mk ((s.data.map (fun c =>
    if uriAllowed c then [c] else ((utf8BytesOfChar c).map pctEnc).flatten)).flatten)

/-! ### MIME table, ETag, conditional requests -/

/-- The static MIME map of src/server.js lines 83-105. -/
def mimeLookup (ext : String) : Option String :=
  if ext = "html" then some "text/html; charset=utf-8"
  else if ext = "htm" then some "text/html; charset=utf-8"
  else if ext = "css" then some "text/css; charset=utf-8"
  else if ext = "js" then some "application/javascript; charset=utf-8"
  else if ext = "mjs" then some "application/javascript; charset=utf-8"
  else if ext = "json" then some "application/json; charset=utf-8"
  else if ext = "txt" then some "text/plain; charset=utf-8"
  else if ext = "xml" then some "application/xml; charset=utf-8"
  else if ext = "svg" then some "image/svg+xml"
  else if ext = "png" then some "image/png"
  else if ext = "jpg" then some "image/jpeg"
  else if ext = "jpeg" then some "image/jpeg"
  else if ext = "gif" then some "image/gif"
  else if ext = "webp" then some "image/webp"
  else if ext = "ico" then some "image/x-icon"
  else if ext = "pdf" then some "application/pdf"
  else if ext = "mp4" then some "video/mp4"
  else if ext = "webm" then some "video/webm"
  else if ext = "mp3" then some "audio/mpeg"
  else if ext = "wav" then some "audio/wav"
  else if ext = "wasm" then some "application/wasm"
  else none

/-- Models Node `path.extname`: the suffix of the last path component from
its last `.`, unless that dot is the component's first character. -/
def extname (p : String) : String :=
  let base := (splitOnChar '/' p.data).getLastD []
  match (base.reverse.takeWhile (fun c => c != '.')), base.reverse.dropWhile (fun c => c != '.') with
  | _, [] => ""                                   -- no dot at all
  | revExt, '.' :: revPre =>
    if revPre = [] then ""                        -- leading dot of the base name
    else String.mk ('.' :: revExt.reverse)
  | _, _ => ""

/-- Direct embedding of `contentTypeFor` (src/server.js lines 107-110). -/
def contentTypeFor (filePath : String) : String :=
  let ext := String.mk (((extname filePath).data.drop 1).map Char.toLower)
  (mimeLookup ext).getD "application/octet-stream"

/-- Stat result as the handler consumes it (JS `fs.Stats`; `mtimeMs` is
taken at whole milliseconds). -/
structure JsStats where
  size : Nat
  mtimeMs : Nat
  isDirectory : Bool
deriving DecidableEq

/-- Direct embedding of `etagFromStats` (src/server.js lines 112-117):
weak ETag from hexadecimal size and mtime. -/
def etagFromStats (st : JsStats) : String :=
  String.mk (['W', '/', '"'] ++ Nat.toDigits 16 st.size
    ++ ['-'] ++ Nat.toDigits 16 st.mtimeMs ++ ['"'])

/-- The conditional-request test of src/server.js line 205:
`(inm && inm === etag) || (ims && new Date(ims).getTime() >= st.mtimeMs)`.
`parseDate` models `new Date(·).getTime()`, `none` standing for NaN (which
fails the `>=`). -/
def shouldSend304 (parseDate : String → Option Int) (inm ims : Option String)
    (etag : String) (mtimeMs : Nat) : Bool :=
  (match inm with
   | some s => decide (s ≠ "" ∧ s = etag)
   | none => false)
  ||
  (match ims with
   | some s =>
     decide (s ≠ "") &&
       (match parseDate s with
        | some t => decide ((mtimeMs : Int) ≤ t)
        | none => false)
   | none => false)

/-! ### Range evaluation -/

inductive RangeResult where
  | notPresent
  | unsat
  | sat (lo hi : Nat)
deriving DecidableEq

/-- Direct embedding of the Range block of `serveFile` (src/server.js lines
211-253), producing the byte span to serve.  Mirrors the code: prefix test
`/^bytes=/`, first comma-separated spec, trim, then either the suffix form
`-k` or the `a-b` form with clamping; every failure is 416 (`unsat`), and a
header not matching `bytes=` is ignored (`notPresent`). -/
def rangeEval (range : Option String) (size : Nat) : RangeResult :=
  match range with
  | none => .notPresent
  | some r =>
    if "bytes=".data.isPrefixOf r.data then
      let spec := trimChars ((splitOnChar ',' (r.data.drop 6)).headD [])
      if spec.contains '-' then
        match splitOnChar '-' spec with
        | s :: e :: _ =>
          if s = [] then
            -- suffix bytes: last k bytes
            match jsNumberL e with
            | some k =>
              if 0 < k then
                let lo : Int := max 0 ((size : Int) - k)
                let hi : Int := (size : Int) - 1
                if lo ≤ hi then .sat lo.toNat hi.toNat else .unsat
              else .unsat
            | none => .unsat
          else
            let sN := jsNumberL s
            let eN := if e = [] then some ((size : Int) - 1) else jsNumberL e
            match sN, eN with
            | some sv, some ev =>
              if sv ≤ ev then
                if sv < (size : Int) then
                  let lo : Int := max 0 sv
                  let hi : Int := min ev ((size : Int) - 1)
                  if lo ≤ hi then .sat lo.toNat hi.toNat else .unsat
                else .unsat
              else .unsat
            | _, _ => .unsat
        | _ => .unsat
      else .unsat
    else .notPresent

/-! ### Requests, responses, the serving pipeline -/

/-- Platform date and URI functions the server calls but does not define:
`new Date(s).getTime()` (`none` = NaN), `Date.prototype.toUTCString`, and
`decodeURI` (used only for the listing title). -/
structure Platform where
  parseDate : String → Option Int
  toUTCString : Nat → String
  decURI : String → String

structure Opts where
  listing : Bool
  spa : Bool
  cacheSeconds : Nat

/-- An incoming request: method, raw target URL, and the three headers the
pipeline reads. -/
structure Request where
  method : String
  url : String
  ifNoneMatch : Option String
  ifModifiedSince : Option String
  range : Option String
deriving DecidableEq

/-- A finished response plan: status, headers in insertion order, body. -/
structure Response where
  status : Nat
  headers : List (String × String)
  body : List Nat
deriving DecidableEq

structure DirEntry where
  name : String
  isDirectory : Bool
deriving DecidableEq

/-- Filesystem capability: `stat` (`none` = the call throws), `fileExists`
(`fs.access`), file contents for streaming, and `readdir` (`none` = the
enumeration throws). -/
structure FS where
  stat : String → Option JsStats
  fileExists : String → Bool
  content : String → List Nat
  readdir : String → Option (List DirEntry)

/-- The error page HTML of `sendError` (src/server.js lines 144-152), the
array-join written as explicit appends. -/
def errorBody (code : Nat) (msg : String) : String :=
  "<!doctype html>" ++ "\n" ++
  "<meta charset=\"utf-8\">" ++ "\n" ++
  "<meta name=\"viewport\" content=\"width=device-width, initial-scale=1\">" ++ "\n" ++
  "<style>html \x7b color-scheme: light dark; font: 16px system-ui; \x7d</style>" ++ "\n" ++
  "<title>" ++ toString code ++ "</title>" ++ "\n" ++
  "<h1>" ++ toString code ++ "</h1>" ++ "\n" ++
  "<p>" ++ msg ++ "</p>"

/-- Direct embedding of `sendError` (src/server.js lines 143-158).  The
body bytes are suppressed for HEAD requests by Node's `ServerResponse`
(`res.end(body)` discards the chunk when the request method was HEAD);
the headers are sent unchanged. -/
def sendError (method : String) (code : Nat) (msg : String) : Response :=
  let body := errorBody code msg
  { status := code
    headers := [("Content-Type", "text/html; charset=utf-8"),
                ("Content-Length", toString (utf8Bytes body).length)]
    body := if method = "HEAD" then [] else utf8Bytes body }

/-- One `<li>` line of the directory listing (src/server.js lines 173-177). -/
def entryLine (reqPath : String) (it : DirEntry) : String :=
  let name := it.name ++ (if it.isDirectory then "/" else "")
  let href := reqPath ++ encodeURI name
  "<li><a href=\"" ++ href ++ "\">" ++ escapeHtml name ++ "</a></li>"

/-- Models `[...].join('\n')`. -/
def joinLines (parts : List String) : String :=
  String.mk (joinWith '\n' (parts.map String.data))

/-- Direct embedding of `listDirectory` (src/server.js lines 160-180),
with the platform `decodeURI` passed in (`decURI`). -/
def listDirectory (decURI : String → String) (items : List DirEntry) (reqPath : String) : String :=
  let reqPath := if reqPath.endsWith "/" then reqPath else reqPath ++ "/"
  joinLines
    (["<!doctype html>",
      "<meta charset=\"utf-8\">",
      "<meta name=\"viewport\" content=\"width=device-width, initial-scale=1\">",
      "<style>html \x7b color-scheme: light dark; font: 16px system-ui; \x7d</style>",
      "<title>Index of " ++ escapeHtml (decURI reqPath) ++ "</title>",
      "<h1>Index of " ++ escapeHtml (decURI reqPath) ++ "</h1>",
      "<ul>"]
     ++ (if reqPath ≠ "/" then ["<li><a href=\"..\">..</a></li>"] else [])
     ++ items.map (entryLine reqPath)
     ++ ["</ul>"])

/-- Direct embedding of `serveFile` (src/server.js lines 186-271) as a pure
response plan: content type, validators, the conditional-request
short-circuit, the Range block, and the body slice streamed by
`fs.createReadStream(filePath, (start, end))` (an inclusive byte range).
For HEAD requests the body is omitted after the headers are written.
In the 200 branch `end - start + 1 = size` (also when `size = 0`, where
the JS `end` is `-1`). -/
def serveFile (pf : Platform) (req : Request) (filePath : String)
    (content : List Nat) (st : JsStats) (opts : Opts) : Response :=
  let type := contentTypeFor filePath
  let etag := etagFromStats st
  let lastModified := pf.toUTCString st.mtimeMs
  let cache := if opts.cacheSeconds > 0 then "public, max-age=" ++ toString opts.cacheSeconds
               else "no-cache"
  let headers := [("Content-Type", type), ("Last-Modified", lastModified),
                  ("ETag", etag), ("Accept-Ranges", "bytes"), ("Cache-Control", cache)]
  if shouldSend304 pf.parseDate req.ifNoneMatch req.ifModifiedSince etag st.mtimeMs then
    { status := 304, headers := headers, body := [] }
  else
    match rangeEval req.range st.size with
    | .unsat =>
      { status := 416
        headers := [("Content-Range", "bytes */" ++ toString st.size)]
        body := [] }
    | .notPresent =>
      { status := 200
        headers := headers ++ [("Content-Length", toString st.size)]
        body := if req.method = "HEAD" then [] else content.take st.size }
    | .sat lo hi =>
      { status := 206
        headers := headers
          ++ [("Content-Range", "bytes " ++ toString lo ++ "-" ++ toString hi ++ "/" ++ toString st.size),
              ("Content-Length", toString (hi + 1 - lo))]
        body := if req.method = "HEAD" then [] else (content.drop lo).take (hi + 1 - lo) }

/-- Is this split segment a WHATWG single-dot path segment? -/
def isDotSeg (s : List Char) : Bool :=
  s = ['.'] || s.map Char.toLower = "%2e".data

/-- Is this split segment a WHATWG double-dot path segment? -/
def isDotDotSeg (s : List Char) : Bool :=
  let l := s.map Char.toLower
  l = "..".data || l = ".%2e".data || l = "%2e.".data || l = "%2e%2e".data

/-- WHATWG dot-segment normalization over the split path segments; a
trailing dot segment leaves a trailing slash (an empty final segment). -/
def normDotSegs (acc : List (List Char)) : List (List Char) → List (List Char)
  | [] => acc
  | s :: rest =>
    if isDotDotSeg s then
      if rest = [] then acc.dropLast ++ [[]]
      else normDotSegs acc.dropLast rest
    else if isDotSeg s then
      if rest = [] then acc ++ [[]]
      else normDotSegs acc rest
    else normDotSegs (acc ++ [s]) rest

/-- Models `new URL(url, base).pathname` for origin-form request targets of
a special (http) scheme: the path section ends at the first `?` or `#`,
backslash acts as a path separator, and single/double dot segments
(including their `%2e` spellings, case-insensitively) are normalized.  The
path percent-encode set is not modelled. -/
def urlPathname (url : String) : String :=
  let p := url.data.takeWhile (fun c => !(c = '?' || c = '#'))
  String.mk ('/' :: joinWith '/'
    (normDotSegs []
      (match splitOnPred (fun c => c = '/' || c = '\\') p with
       | [] :: t => t
       | t => t)))

/-- The per-request handler returned by `handlerFactory` (src/server.js
lines 273-349), as a pure function of the request and the filesystem.  The
500 on a failed `stat` of a directory's `index.html` models the rejection
being caught by the server wrapper in `main`, and the 500 on a failed
`readdir` is the `catch` of src/server.js line 332. -/
def handler (pf : Platform) (fsx : FS) (opts : Opts) (rootResolved : String)
    (req : Request) : Response :=
  let reqPath := urlPathname req.url
  match safeJoin rootResolved reqPath with
  | none => sendError req.method 400 "Bad Request"
  | some absPath =>
    match fsx.stat absPath with
    | none =>
      if opts.spa then
        let indexPath := pathJoin rootResolved "index.html"
        if fsx.fileExists indexPath then
          match fsx.stat indexPath with
          | some ist => serveFile pf req indexPath (fsx.content indexPath) ist opts
          | none => sendError req.method 404 "Not Found"
        else sendError req.method 404 "Not Found"
      else sendError req.method 404 "Not Found"
    | some st =>
      if st.isDirectory then
        let indexPath := pathJoin absPath "index.html"
        if fsx.fileExists indexPath then
          match fsx.stat indexPath with
          | some ist => serveFile pf req indexPath (fsx.content indexPath) ist opts
          | none => sendError req.method 500 "Internal Server Error"
        else if !opts.listing then sendError req.method 403 "Directory listing denied"
        else
          match fsx.readdir absPath with
          | some items =>
            let body := listDirectory pf.decURI items reqPath
            { status := 200
              headers := [("Content-Type", "text/html; charset=utf-8"),
                          ("Content-Length", toString (utf8Bytes body).length),
                          ("Cache-Control", "no-cache")]
              body := if req.method = "HEAD" then [] else utf8Bytes body }
          | none => sendError req.method 500 "Failed to read directory"
      else serveFile pf req absPath (fsx.content absPath) st opts

/-! ### HEAD / GET agreement (claim C4) -/

lemma sendError_method_status_headers (m m' : String) (code : Nat) (msg : String) :
    (sendError m code msg).status = (sendError m' code msg).status ∧
    (sendError m code msg).headers = (sendError m' code msg).headers :=
  ⟨rfl, rfl⟩

lemma sendError_head_body (code : Nat) (msg : String) :
    (sendError "HEAD" code msg).body = [] := by
  simp [sendError]

lemma serveFile_method_status_headers (pf : Platform) (m m' u u' : String)
    (inm ims rng : Option String) (fp : String) (content : List Nat)
    (st : JsStats) (opts : Opts) :
    (serveFile pf ⟨m, u, inm, ims, rng⟩ fp content st opts).status
      = (serveFile pf ⟨m', u', inm, ims, rng⟩ fp content st opts).status ∧
    (serveFile pf ⟨m, u, inm, ims, rng⟩ fp content st opts).headers
      = (serveFile pf ⟨m', u', inm, ims, rng⟩ fp content st opts).headers := by
  unfold serveFile
  dsimp only
  cases shouldSend304 pf.parseDate inm ims (etagFromStats st) st.mtimeMs
  · cases rangeEval rng st.size <;> simp
  · simp

lemma serveFile_head_body (pf : Platform) (u : String) (inm ims rng : Option String)
    (fp : String) (content : List Nat) (st : JsStats) (opts : Opts) :
    (serveFile pf ⟨"HEAD", u, inm, ims, rng⟩ fp content st opts).body = [] := by
  unfold serveFile
  dsimp only
  cases shouldSend304 pf.parseDate inm ims (etagFromStats st) st.mtimeMs
  · cases rangeEval rng st.size <;> simp
  · simp

/-- C4: a HEAD request follows the identical decision path as the
corresponding GET (same URL and request headers) and produces the same
status code and the same headers — `Content-Length`/`Content-Range`
included, as they are computed before the body is suppressed — but a
zero-length body, in every reachable outcome (file 200/206/304/416,
directory listing, SPA fallback, and all sendError states). -/
theorem C4_head_same_status_headers_empty_body (pf : Platform) (fsx : FS) (opts : Opts)
    (root u : String) (inm ims rng : Option String) :
    (handler pf fsx opts root ⟨"HEAD", u, inm, ims, rng⟩).status
      = (handler pf fsx opts root ⟨"GET", u, inm, ims, rng⟩).status ∧
    (handler pf fsx opts root ⟨"HEAD", u, inm, ims, rng⟩).headers
      = (handler pf fsx opts root ⟨"GET", u, inm, ims, rng⟩).headers ∧
    (handler pf fsx opts root ⟨"HEAD", u, inm, ims, rng⟩).body = [] := by
  unfold handler
  dsimp only
  cases hsj : safeJoin root (urlPathname u) with
  | none =>
    exact ⟨rfl, rfl, sendError_head_body 400 "Bad Request"⟩
  | some absPath =>
    dsimp only
    cases hst : fsx.stat absPath with
    | none =>
      dsimp only
      by_cases hspa : opts.spa = true
      · simp only [if_pos hspa]
        by_cases hex : fsx.fileExists (pathJoin root "index.html") = true
        · simp only [if_pos hex]
          cases hist : fsx.stat (pathJoin root "index.html") with
          | none => exact ⟨rfl, rfl, sendError_head_body 404 "Not Found"⟩
          | some ist =>
            dsimp only
            refine ⟨?_, ?_, serveFile_head_body ..⟩
            · exact (serveFile_method_status_headers ..).1
            · exact (serveFile_method_status_headers ..).2
        · simp only [if_neg hex]
          exact ⟨rfl, rfl, sendError_head_body 404 "Not Found"⟩
      · simp only [if_neg hspa]
        exact ⟨rfl, rfl, sendError_head_body 404 "Not Found"⟩
    | some st =>
      dsimp only
      by_cases hdir : st.isDirectory = true
      · simp only [if_pos hdir]
        by_cases hex : fsx.fileExists (pathJoin absPath "index.html") = true
        · simp only [if_pos hex]
          cases hist : fsx.stat (pathJoin absPath "index.html") with
          | none => exact ⟨rfl, rfl, sendError_head_body 500 "Internal Server Error"⟩
          | some ist =>
            dsimp only
            refine ⟨?_, ?_, serveFile_head_body ..⟩
            · exact (serveFile_method_status_headers ..).1
            · exact (serveFile_method_status_headers ..).2
        · simp only [if_neg hex]
          by_cases hlist : (!opts.listing) = true
          · simp only [if_pos hlist]
            exact ⟨rfl, rfl, sendError_head_body 403 "Directory listing denied"⟩
          · simp only [if_neg hlist]
            cases hrd : fsx.readdir absPath with
            | none => exact ⟨rfl, rfl, sendError_head_body 500 "Failed to read directory"⟩
            | some items =>
              refine ⟨rfl, rfl, ?_⟩
              simp
      · simp only [if_neg hdir]
        refine ⟨?_, ?_, serveFile_head_body ..⟩
        · exact (serveFile_method_status_headers ..).1
        · exact (serveFile_method_status_headers ..).2

/-! ### Conditional requests (claim C5) -/

/-- A fixed platform instance used to instantiate witnesses: no string
parses as a date. -/
def trivPlatform : Platform :=
  ⟨fun _ => none, fun _ => "Thu, 01 Jan 1970 00:00:00 GMT", fun s => s⟩

lemma etag_ne_empty (st : JsStats) : etagFromStats st ≠ "" := by
  intro h
  have hd := congrArg String.data h
  simp [etagFromStats] at hd

lemma shouldSend304_true_iff (p : String → Option Int) (inm ims : Option String)
    (etag : String) (mt : Nat) (hp : p "" = none) (hetag : etag ≠ "") :
    shouldSend304 p inm ims etag mt = true ↔
      (inm = some etag ∨ ∃ s t, ims = some s ∧ p s = some t ∧ (mt : Int) ≤ t) := by
  unfold shouldSend304
  constructor
  · intro h
    rw [Bool.or_eq_true] at h
    rcases h with h | h
    · cases inm with
      | none => simp at h
      | some s =>
        rw [decide_eq_true_iff] at h
        exact Or.inl (by rw [h.2])
    · cases ims with
      | none => simp at h
      | some s =>
        rw [Bool.and_eq_true] at h
        cases hps : p s with
        | none => rw [hps] at h; simp at h
        | some t =>
          rw [hps] at h
          exact Or.inr ⟨s, t, rfl, hps, by simpa using h.2⟩
  · intro h
    rcases h with h | ⟨s, t, hims, hps, hmt⟩
    · rw [h]
      simp [hetag]
    · have hs : s ≠ "" := by
        rintro rfl
        rw [hp] at hps
        cases hps
      rw [hims, Bool.or_eq_true]
      right
      rw [Bool.and_eq_true, hps]
      exact ⟨by simpa using hs, by simpa using hmt⟩

/-- C5: for a GET/HEAD of an existing file, the response short-circuits to
304 exactly when the `If-None-Match` header equals the file's computed ETag
byte-for-byte, or the `If-Modified-Since` header is present, parses as a
date, and the parsed instant is at least the file's modification instant
(logical OR; an unparseable `If-Modified-Since` — NaN, including the empty
string — never triggers it). -/
theorem C5_304_iff_validators_match (pf : Platform) (req : Request) (fp : String)
    (content : List Nat) (st : JsStats) (opts : Opts)
    (hp : pf.parseDate "" = none) :
    (serveFile pf req fp content st opts).status = 304 ↔
      (req.ifNoneMatch = some (etagFromStats st) ∨
       ∃ s t, req.ifModifiedSince = some s ∧ pf.parseDate s = some t ∧
         (st.mtimeMs : Int) ≤ t) := by
  have hetag := etag_ne_empty st
  unfold serveFile
  dsimp only
  by_cases hb : shouldSend304 pf.parseDate req.ifNoneMatch req.ifModifiedSince
      (etagFromStats st) st.mtimeMs = true
  · simp only [if_pos hb]
    exact ⟨fun _ => (shouldSend304_true_iff _ _ _ _ _ hp hetag).mp hb, fun _ => by trivial⟩
  · simp only [if_neg hb]
    constructor
    · intro h
      exfalso
      cases hr : rangeEval req.range st.size <;> rw [hr] at h <;> simp at h
    · intro h
      exact absurd ((shouldSend304_true_iff _ _ _ _ _ hp hetag).mpr h) hb

/-- Witness for C5 at a concrete input: a request whose `If-None-Match`
equals the file's ETag is answered 304. -/
theorem C5_witness :
    (serveFile trivPlatform
        ⟨"GET", "/a.txt", some (etagFromStats ⟨1, 2, false⟩), none, none⟩
        "/r/a.txt" [65] ⟨1, 2, false⟩ ⟨true, false, 0⟩).status = 304 ↔
      ((some (etagFromStats ⟨1, 2, false⟩) : Option String)
          = some (etagFromStats ⟨1, 2, false⟩) ∨
       ∃ s t, (none : Option String) = some s ∧ trivPlatform.parseDate s = some t ∧
         ((2 : Nat) : Int) ≤ t) :=
  C5_304_iff_validators_match trivPlatform
    ⟨"GET", "/a.txt", some (etagFromStats ⟨1, 2, false⟩), none, none⟩
    "/r/a.txt" [65] ⟨1, 2, false⟩ ⟨true, false, 0⟩ rfl

/-! ### Range evaluation lemmas (claims C6 and C7) -/

lemma str_data_append (s t : String) : (s ++ t).data = s.data ++ t.data := rfl

lemma isPrefixOf_append_left (l m : List Char) : l.isPrefixOf (l ++ m) = true := by
  induction l with
  | nil => simp [List.isPrefixOf]
  | cons a as ih => simp [List.isPrefixOf, ih]

lemma splitOnChar_of_not_mem {sep : Char} {cs : List Char} (h : sep ∉ cs) :
    splitOnChar sep cs = [cs] := by
  induction cs with
  | nil => rfl
  | cons c cs ih =>
    have hc : c ≠ sep := fun hc => h (hc ▸ List.mem_cons_self c cs)
    have hcs : sep ∉ cs := fun hm => h (List.mem_cons_of_mem c hm)
    simp [splitOnChar, ih hcs, if_neg hc]

lemma splitOnChar_append_sep {sep : Char} {xs : List Char} (ys : List Char)
    (h : sep ∉ xs) : splitOnChar sep (xs ++ sep :: ys) = xs :: splitOnChar sep ys := by
  induction xs with
  | nil => simp [splitOnChar]
  | cons x xs ih =>
    have hx : x ≠ sep := fun hc => h (hc ▸ List.mem_cons_self x xs)
    have hxs : sep ∉ xs := fun hm => h (List.mem_cons_of_mem x hm)
    simp [splitOnChar, ih hxs, if_neg hx]

lemma trimChars_eq_self {cs : List Char} (h : ∀ c ∈ cs, isWs c = false) :
    trimChars cs = cs := by
  unfold trimChars
  have h1 : cs.dropWhile isWs = cs := by
    cases cs with
    | nil => rfl
    | cons a t =>
      rw [List.dropWhile_cons]
      simp [h a (List.mem_cons_self a t)]
  rw [h1]
  have h2 : cs.reverse.dropWhile isWs = cs.reverse := by
    cases hr : cs.reverse with
    | nil => rfl
    | cons a t =>
      have ha : a ∈ cs := by
        rw [← List.mem_reverse, hr]
        exact List.mem_cons_self a t
      rw [List.dropWhile_cons]
      simp [h a ha]
  rw [h2, List.reverse_reverse]

lemma isDig_props {c : Char} (h : isDig c = true) :
    isWs c = false ∧ c ≠ '-' ∧ c ≠ ',' := by
  unfold isDig at h
  rw [Bool.and_eq_true, decide_eq_true_iff, decide_eq_true_iff] at h
  refine ⟨?_, ?_, ?_⟩
  · unfold isWs
    have hsp : c ≠ ' ' := by rintro rfl; exact absurd h (by decide)
    have hta : c ≠ '\t' := by rintro rfl; exact absurd h (by decide)
    have hnl : c ≠ '\n' := by rintro rfl; exact absurd h (by decide)
    have hcr : c ≠ '\r' := by rintro rfl; exact absurd h (by decide)
    simp [hsp, hta, hnl, hcr]
  · rintro rfl; exact absurd h (by decide)
  · rintro rfl; exact absurd h (by decide)

/-- Characterization of the `a-b` range form on digit strings: with
`0 ≤ a ≤ b < size` the evaluator returns exactly the inclusive span
`[a, b]`. -/
lemma rangeEval_ab (sa sb : List Char) (a b size : Nat)
    (hsa : jsNumberL sa = some (a : Int)) (hsb : jsNumberL sb = some (b : Int))
    (hda : ∀ c ∈ sa, isDig c = true) (hdb : ∀ c ∈ sb, isDig c = true)
    (hna : sa ≠ []) (hnb : sb ≠ [])
    (hab : a ≤ b) (hbN : b < size) :
    rangeEval (some (String.mk ("bytes=".data ++ (sa ++ '-' :: sb)))) size = .sat a b := by
  have hdash_a : '-' ∉ sa := fun hm => ((isDig_props (hda _ hm)).2.1 rfl)
  have hdash_b : '-' ∉ sb := fun hm => ((isDig_props (hdb _ hm)).2.1 rfl)
  have hcomma : ',' ∉ sa ++ '-' :: sb := by
    intro hm
    rcases List.mem_append.mp hm with hm | hm
    · exact (isDig_props (hda _ hm)).2.2 rfl
    · rcases List.mem_cons.mp hm with hm | hm
      · cases hm
      · exact (isDig_props (hdb _ hm)).2.2 rfl
  have hws : ∀ c ∈ sa ++ '-' :: sb, isWs c = false := by
    intro c hm
    rcases List.mem_append.mp hm with hm | hm
    · exact (isDig_props (hda _ hm)).1
    · rcases List.mem_cons.mp hm with hm | hm
      · subst hm; decide
      · exact (isDig_props (hdb _ hm)).1
  unfold rangeEval
  dsimp only
  rw [if_pos (isPrefixOf_append_left ..)]
  have hdrop : ("bytes=".data ++ (sa ++ '-' :: sb)).drop 6 = sa ++ '-' :: sb := by
    have : ("bytes=".data).length = 6 := rfl
    rw [← this, List.drop_left]
  rw [hdrop, splitOnChar_of_not_mem hcomma]
  dsimp only [List.headD]
  rw [trimChars_eq_self hws]
  have hcontains : (sa ++ '-' :: sb).contains '-' = true := by
    have : '-' ∈ sa ++ '-' :: sb := List.mem_append_right _ (List.mem_cons_self _ _)
    exact List.elem_eq_true_of_mem this
  rw [if_pos hcontains, splitOnChar_append_sep _ hdash_a, splitOnChar_of_not_mem hdash_b]
  dsimp only
  rw [if_neg hna, if_neg hnb, hsa, hsb]
  dsimp only
  rw [if_pos (by exact_mod_cast hab)]
  rw [if_pos (by exact_mod_cast hab.trans_lt hbN)]
  have hlo : max 0 ((a : Nat) : Int) = (a : Int) := max_eq_right (by positivity)
  have hhi : min ((b : Nat) : Int) ((size : Int) - 1) = (b : Int) :=
    min_eq_left (by omega)
  rw [hlo, hhi, if_pos (by exact_mod_cast hab)]
  congr 1

/-- Characterization of the suffix range form `-k` on a digit string. -/
lemma rangeEval_suffix (sk : List Char) (k size : Nat)
    (hsk : jsNumberL sk = some (k : Int))
    (hdk : ∀ c ∈ sk, isDig c = true) :
    rangeEval (some (String.mk ("bytes=".data ++ ('-' :: sk)))) size =
      (if k = 0 ∨ size = 0 then .unsat else .sat (size - min k size) (size - 1)) := by
  have hdash_k : '-' ∉ sk := fun hm => ((isDig_props (hdk _ hm)).2.1 rfl)
  have hcomma : ',' ∉ '-' :: sk := by
    intro hm
    rcases List.mem_cons.mp hm with hm | hm
    · cases hm
    · exact (isDig_props (hdk _ hm)).2.2 rfl
  have hws : ∀ c ∈ '-' :: sk, isWs c = false := by
    intro c hm
    rcases List.mem_cons.mp hm with hm | hm
    · subst hm; decide
    · exact (isDig_props (hdk _ hm)).1
  unfold rangeEval
  dsimp only
  rw [if_pos (isPrefixOf_append_left ..)]
  have hdrop : ("bytes=".data ++ ('-' :: sk)).drop 6 = '-' :: sk := by
    have : ("bytes=".data).length = 6 := rfl
    rw [← this, List.drop_left]
  rw [hdrop, splitOnChar_of_not_mem hcomma]
  dsimp only [List.headD]
  rw [trimChars_eq_self hws]
  have hcontains : ('-' :: sk).contains '-' = true :=
    List.elem_eq_true_of_mem (List.mem_cons_self _ _)
  rw [if_pos hcontains]
  have hsplit : splitOnChar '-' ('-' :: sk) = [] :: [sk] := by
    have : ('-' :: sk) = [] ++ '-' :: sk := rfl
    rw [this, splitOnChar_append_sep _ (by simp), splitOnChar_of_not_mem hdash_k]
  rw [hsplit]
  dsimp only
  rw [if_pos rfl, hsk]
  dsimp only
  by_cases hk : k = 0
  · subst hk
    rw [if_neg (by decide), if_pos (by omega)]
  · rw [if_pos (by exact_mod_cast Nat.pos_of_ne_zero hk)]
    by_cases hsz : size = 0
    · subst hsz
      rw [if_neg (by
        simp only [Nat.cast_zero, zero_sub, not_le]
        have : max 0 (0 - (k : Int)) = 0 := max_eq_left (by omega)
        omega), if_pos (by omega)]
    · rw [if_pos (by
        have h1 : (0 : Int) ≤ max 0 ((size : Int) - k) := le_max_left 0 _
        have h2 : max 0 ((size : Int) - k) ≤ (size : Int) - 1 := by
          rcases max_cases 0 ((size : Int) - k) with ⟨he, _⟩ | ⟨he, _⟩ <;> omega
        omega)]
      rw [if_neg (by omega)]
      congr 1
      · rcases max_cases 0 ((size : Int) - (k : Int)) with ⟨he, hc⟩ | ⟨he, hc⟩ <;>
          rw [he] <;> omega
      · omega

lemma satBounds_helper {A B : Int} {size lo hi : Nat} (h0 : 0 ≤ A)
    (hB : B ≤ (size : Int) - 1) (hAB : A ≤ B)
    (h1 : A.toNat = lo) (h2 : B.toNat = hi) : lo ≤ hi ∧ hi < size := by
  omega

/-- Every range accepted as satisfiable has `lo ≤ hi < size`. -/
lemma rangeEval_sat_bounds (rng : Option String) (size lo hi : Nat)
    (h : rangeEval rng size = .sat lo hi) : lo ≤ hi ∧ hi < size := by
  unfold rangeEval at h
  dsimp only at h
  repeat' split at h
  all_goals try exact RangeResult.noConfusion h
  all_goals rw [RangeResult.sat.injEq] at h
  all_goals obtain ⟨h1, h2⟩ := h
  all_goals refine satBounds_helper le_sup_left ?_ (by assumption) h1 h2
  all_goals first
    | exact le_refl _
    | exact inf_le_right

lemma range_header_ab (sa sb : String) :
    "bytes=" ++ sa ++ "-" ++ sb = String.mk ("bytes=".data ++ (sa.data ++ '-' :: sb.data)) := by
  have hdata : ("bytes=" ++ sa ++ "-" ++ sb).data
      = "bytes=".data ++ (sa.data ++ '-' :: sb.data) := by
    simp [str_data_append, List.append_assoc, show "-".data = ['-'] from rfl]
  calc "bytes=" ++ sa ++ "-" ++ sb
      = String.mk (("bytes=" ++ sa ++ "-" ++ sb).data) := rfl
    _ = String.mk ("bytes=".data ++ (sa.data ++ '-' :: sb.data)) := by rw [hdata]

lemma range_header_suffix (sk : String) :
    "bytes=-" ++ sk = String.mk ("bytes=".data ++ ('-' :: sk.data)) := by
  have hdata : ("bytes=-" ++ sk).data = "bytes=".data ++ ('-' :: sk.data) := by
    simp [str_data_append, show "bytes=-".data = "bytes=".data ++ ['-'] from rfl,
      List.append_assoc]
  calc "bytes=-" ++ sk
      = String.mk (("bytes=-" ++ sk).data) := rfl
    _ = String.mk ("bytes=".data ++ ('-' :: sk.data)) := by rw [hdata]

/-- C6: for a file of size `N ≥ 1` and a request `Range: bytes=a-b` (decimal
digit strings denoting `a` and `b`) with `0 ≤ a ≤ b < N` and no matching
conditional validators, the response is 206 with `Content-Range: bytes
a-b/N`, `Content-Length` equal to `b-a+1`, and a body that is exactly the
file's inclusive byte slice `a..b`; moreover every range accepted as
satisfiable by the evaluator has `start ≤ end < size`. -/
theorem C6_bounded_range_served_exactly (pf : Platform) (u fp : String)
    (inm ims : Option String) (content : List Nat) (st : JsStats) (opts : Opts)
    (sa sb : String) (a b : Nat)
    (hsz : st.size = content.length)
    (hsa : jsNumber sa = some (a : Int)) (hsb : jsNumber sb = some (b : Int))
    (hda : ∀ c ∈ sa.data, isDig c = true) (hdb : ∀ c ∈ sb.data, isDig c = true)
    (hna : sa.data ≠ []) (hnb : sb.data ≠ [])
    (hab : a ≤ b) (hbN : b < content.length)
    (hnc : shouldSend304 pf.parseDate inm ims (etagFromStats st) st.mtimeMs = false) :
    (serveFile pf ⟨"GET", u, inm, ims, some ("bytes=" ++ sa ++ "-" ++ sb)⟩ fp content st opts).status = 206 ∧
    ("Content-Range", "bytes " ++ toString a ++ "-" ++ toString b ++ "/" ++ toString st.size)
      ∈ (serveFile pf ⟨"GET", u, inm, ims, some ("bytes=" ++ sa ++ "-" ++ sb)⟩ fp content st opts).headers ∧
    ("Content-Length", toString (b - a + 1))
      ∈ (serveFile pf ⟨"GET", u, inm, ims, some ("bytes=" ++ sa ++ "-" ++ sb)⟩ fp content st opts).headers ∧
    (serveFile pf ⟨"GET", u, inm, ims, some ("bytes=" ++ sa ++ "-" ++ sb)⟩ fp content st opts).body
      = (content.drop a).take (b - a + 1) ∧
    (serveFile pf ⟨"GET", u, inm, ims, some ("bytes=" ++ sa ++ "-" ++ sb)⟩ fp content st opts).body.length
      = b - a + 1 ∧
    (∀ rng sz lo hi, rangeEval rng sz = RangeResult.sat lo hi → lo ≤ hi ∧ hi < sz) := by
  have hre := rangeEval_ab sa.data sb.data a b st.size hsa hsb hda hdb hna hnb hab
      (by omega)
  rw [← range_header_ab sa sb] at hre
  have harith : b + 1 - a = b - a + 1 := by omega
  unfold serveFile
  dsimp only
  rw [if_neg (show ¬ _ from by simp [hnc]), hre]
  dsimp only
  refine ⟨rfl, by simp, ?_, ?_, ?_, fun rng sz lo hi h => rangeEval_sat_bounds rng sz lo hi h⟩
  · rw [harith]
    simp
  · rw [if_neg (by decide), harith]
  · rw [if_neg (by decide), harith]
    rw [List.length_take, List.length_drop]
    omega

/-- Witness for C6 at a concrete input: `Range: bytes=2-5` on a ten-byte
file. -/
theorem C6_witness :
    (serveFile trivPlatform ⟨"GET", "/r.txt", none, none, some ("bytes=" ++ "2" ++ "-" ++ "5")⟩
        "/d/r.txt" [48, 49, 50, 51, 52, 53, 54, 55, 56, 57] ⟨10, 7, false⟩ ⟨true, false, 0⟩).status = 206 ∧
    ("Content-Range", "bytes " ++ toString 2 ++ "-" ++ toString 5 ++ "/" ++ toString (10 : Nat))
      ∈ (serveFile trivPlatform ⟨"GET", "/r.txt", none, none, some ("bytes=" ++ "2" ++ "-" ++ "5")⟩
        "/d/r.txt" [48, 49, 50, 51, 52, 53, 54, 55, 56, 57] ⟨10, 7, false⟩ ⟨true, false, 0⟩).headers ∧
    ("Content-Length", toString (5 - 2 + 1))
      ∈ (serveFile trivPlatform ⟨"GET", "/r.txt", none, none, some ("bytes=" ++ "2" ++ "-" ++ "5")⟩
        "/d/r.txt" [48, 49, 50, 51, 52, 53, 54, 55, 56, 57] ⟨10, 7, false⟩ ⟨true, false, 0⟩).headers ∧
    (serveFile trivPlatform ⟨"GET", "/r.txt", none, none, some ("bytes=" ++ "2" ++ "-" ++ "5")⟩
        "/d/r.txt" [48, 49, 50, 51, 52, 53, 54, 55, 56, 57] ⟨10, 7, false⟩ ⟨true, false, 0⟩).body
      = (([48, 49, 50, 51, 52, 53, 54, 55, 56, 57] : List Nat).drop 2).take (5 - 2 + 1) ∧
    (serveFile trivPlatform ⟨"GET", "/r.txt", none, none, some ("bytes=" ++ "2" ++ "-" ++ "5")⟩
        "/d/r.txt" [48, 49, 50, 51, 52, 53, 54, 55, 56, 57] ⟨10, 7, false⟩ ⟨true, false, 0⟩).body.length
      = 5 - 2 + 1 ∧
    (∀ rng sz lo hi, rangeEval rng sz = RangeResult.sat lo hi → lo ≤ hi ∧ hi < sz) :=
  C6_bounded_range_served_exactly trivPlatform "/r.txt" "/d/r.txt" none none
    [48, 49, 50, 51, 52, 53, 54, 55, 56, 57] ⟨10, 7, false⟩ ⟨true, false, 0⟩
    "2" "5" 2 5 (by decide) (by decide) (by decide)
    (by decide) (by decide) (by decide) (by decide) (by decide) (by decide) (by decide)

/-- C7: for a file of size `N` and a request `Range: bytes=-k` (a decimal
digit string denoting `k`): if `k = 0` or the file is empty the result is
416; if `k > N` the start clamps to 0 and the entire file is served with
206; if `1 ≤ k ≤ N` the response is 206 serving exactly the last `k` bytes
(`start = N-k`, `end = N-1`). -/
theorem C7_suffix_range_served (pf : Platform) (u fp : String)
    (inm ims : Option String) (content : List Nat) (st : JsStats) (opts : Opts)
    (sk : String) (k : Nat)
    (hsz : st.size = content.length)
    (hsk : jsNumber sk = some (k : Int))
    (hdk : ∀ c ∈ sk.data, isDig c = true)
    (hnc : shouldSend304 pf.parseDate inm ims (etagFromStats st) st.mtimeMs = false) :
    (k = 0 ∨ st.size = 0 →
      (serveFile pf ⟨"GET", u, inm, ims, some ("bytes=-" ++ sk)⟩ fp content st opts).status = 416 ∧
      ("Content-Range", "bytes */" ++ toString st.size)
        ∈ (serveFile pf ⟨"GET", u, inm, ims, some ("bytes=-" ++ sk)⟩ fp content st opts).headers) ∧
    (st.size < k ∧ 0 < st.size →
      (serveFile pf ⟨"GET", u, inm, ims, some ("bytes=-" ++ sk)⟩ fp content st opts).status = 206 ∧
      (serveFile pf ⟨"GET", u, inm, ims, some ("bytes=-" ++ sk)⟩ fp content st opts).body = content) ∧
    (1 ≤ k ∧ k ≤ st.size →
      (serveFile pf ⟨"GET", u, inm, ims, some ("bytes=-" ++ sk)⟩ fp content st opts).status = 206 ∧
      (serveFile pf ⟨"GET", u, inm, ims, some ("bytes=-" ++ sk)⟩ fp content st opts).body
        = content.drop (st.size - k) ∧
      ("Content-Range", "bytes " ++ toString (st.size - k) ++ "-" ++ toString (st.size - 1)
          ++ "/" ++ toString st.size)
        ∈ (serveFile pf ⟨"GET", u, inm, ims, some ("bytes=-" ++ sk)⟩ fp content st opts).headers) := by
  have hre := rangeEval_suffix sk.data k st.size hsk hdk
  rw [← range_header_suffix sk] at hre
  unfold serveFile
  dsimp only
  rw [if_neg (show ¬ _ from by simp [hnc]), hre]
  refine ⟨?_, ?_, ?_⟩
  · intro hA
    rw [if_pos hA]
    exact ⟨rfl, by simp⟩
  · rintro ⟨hB1, hB2⟩
    rw [if_neg (by omega)]
    dsimp only
    refine ⟨rfl, ?_⟩
    rw [if_neg (by decide)]
    rw [min_eq_right (le_of_lt hB1)]
    rw [show st.size - st.size = 0 from by omega, List.drop_zero]
    rw [show st.size - 1 + 1 - 0 = content.length from by omega]
    exact List.take_length content
  · rintro ⟨hC1, hC2⟩
    rw [if_neg (by omega)]
    dsimp only
    rw [min_eq_left hC2]
    refine ⟨rfl, ?_, by simp⟩
    rw [if_neg (by decide)]
    rw [show st.size - 1 + 1 - (st.size - k) = k from by omega]
    exact List.take_of_length_le (by rw [List.length_drop]; omega)

/-- Witness for C7 at a concrete input: `Range: bytes=-3` on a ten-byte
file serves the last three bytes. -/
theorem C7_witness :
    ((3 : Nat) = 0 ∨ (10 : Nat) = 0 →
      (serveFile trivPlatform ⟨"GET", "/r.txt", none, none, some ("bytes=-" ++ "3")⟩
        "/d/r.txt" [48, 49, 50, 51, 52, 53, 54, 55, 56, 57] ⟨10, 7, false⟩ ⟨true, false, 0⟩).status = 416 ∧
      ("Content-Range", "bytes */" ++ toString (10 : Nat))
        ∈ (serveFile trivPlatform ⟨"GET", "/r.txt", none, none, some ("bytes=-" ++ "3")⟩
        "/d/r.txt" [48, 49, 50, 51, 52, 53, 54, 55, 56, 57] ⟨10, 7, false⟩ ⟨true, false, 0⟩).headers) ∧
    ((10 : Nat) < 3 ∧ (0 : Nat) < 10 →
      (serveFile trivPlatform ⟨"GET", "/r.txt", none, none, some ("bytes=-" ++ "3")⟩
        "/d/r.txt" [48, 49, 50, 51, 52, 53, 54, 55, 56, 57] ⟨10, 7, false⟩ ⟨true, false, 0⟩).status = 206 ∧
      (serveFile trivPlatform ⟨"GET", "/r.txt", none, none, some ("bytes=-" ++ "3")⟩
        "/d/r.txt" [48, 49, 50, 51, 52, 53, 54, 55, 56, 57] ⟨10, 7, false⟩ ⟨true, false, 0⟩).body
        = [48, 49, 50, 51, 52, 53, 54, 55, 56, 57]) ∧
    ((1 : Nat) ≤ 3 ∧ (3 : Nat) ≤ 10 →
      (serveFile trivPlatform ⟨"GET", "/r.txt", none, none, some ("bytes=-" ++ "3")⟩
        "/d/r.txt" [48, 49, 50, 51, 52, 53, 54, 55, 56, 57] ⟨10, 7, false⟩ ⟨true, false, 0⟩).status = 206 ∧
      (serveFile trivPlatform ⟨"GET", "/r.txt", none, none, some ("bytes=-" ++ "3")⟩
        "/d/r.txt" [48, 49, 50, 51, 52, 53, 54, 55, 56, 57] ⟨10, 7, false⟩ ⟨true, false, 0⟩).body
        = ([48, 49, 50, 51, 52, 53, 54, 55, 56, 57] : List Nat).drop (10 - 3) ∧
      ("Content-Range", "bytes " ++ toString ((10 : Nat) - 3) ++ "-" ++ toString ((10 : Nat) - 1)
          ++ "/" ++ toString (10 : Nat))
        ∈ (serveFile trivPlatform ⟨"GET", "/r.txt", none, none, some ("bytes=-" ++ "3")⟩
        "/d/r.txt" [48, 49, 50, 51, 52, 53, 54, 55, 56, 57] ⟨10, 7, false⟩ ⟨true, false, 0⟩).headers) :=
  C7_suffix_range_served trivPlatform "/r.txt" "/d/r.txt" none none
    [48, 49, 50, 51, 52, 53, 54, 55, 56, 57] ⟨10, 7, false⟩ ⟨true, false, 0⟩
    "3" 3 (by decide) (by decide) (by decide) (by decide)

/-! ### Error pages (claim C8) -/

/-- C8 counterexample: the 416 response is an error response carrying no
body at all and no `Content-Type` header (its only header is
`Content-Range`), contradicting the claim that every error response —
416 included — carries an HTML body with `text/html; charset=utf-8`. -/
theorem C8_counterexample_416_has_no_html_body :
    (serveFile trivPlatform ⟨"GET", "/z.txt", none, none, some "bytes=10-2"⟩
        "/d/z.txt" [65, 66, 67, 68] ⟨4, 7, false⟩ ⟨true, false, 0⟩).status = 416 ∧
    (serveFile trivPlatform ⟨"GET", "/z.txt", none, none, some "bytes=10-2"⟩
        "/d/z.txt" [65, 66, 67, 68] ⟨4, 7, false⟩ ⟨true, false, 0⟩).body = [] ∧
    (serveFile trivPlatform ⟨"GET", "/z.txt", none, none, some "bytes=10-2"⟩
        "/d/z.txt" [65, 66, 67, 68] ⟨4, 7, false⟩ ⟨true, false, 0⟩).headers
      = [("Content-Range", "bytes */4")] := by
  decide

set_option maxRecDepth 4096 in
/-- C8 (amended): every error response produced through `sendError` — the
400, 403, 404 and 500 pages — carries a small HTML body with content type
`text/html; charset=utf-8` and a `Content-Length` for it, and the body text
contains the numeric status code and the short message; the 416 response is
the exception, carrying no body and only a `Content-Range` header. -/
theorem C8_sendError_html_error_pages (code : Nat) (msg : String) :
    (sendError "GET" code msg).status = code ∧
    ("Content-Type", "text/html; charset=utf-8") ∈ (sendError "GET" code msg).headers ∧
    ("Content-Length", toString (utf8Bytes (errorBody code msg)).length)
      ∈ (sendError "GET" code msg).headers ∧
    (sendError "GET" code msg).body = utf8Bytes (errorBody code msg) ∧
    (toString code).data <:+: (errorBody code msg).data ∧
    msg.data <:+: (errorBody code msg).data := by
  refine ⟨rfl, by simp [sendError], by simp [sendError], by simp [sendError], ?_, ?_⟩
  · refine ⟨("<!doctype html>" ++ "\n" ++ "<meta charset=\"utf-8\">" ++ "\n"
      ++ "<meta name=\"viewport\" content=\"width=device-width, initial-scale=1\">" ++ "\n"
      ++ "<style>html \x7b color-scheme: light dark; font: 16px system-ui; \x7d</style>" ++ "\n"
      ++ "<title>").data,
      ("</title>" ++ "\n" ++ "<h1>" ++ toString code ++ "</h1>" ++ "\n"
        ++ "<p>" ++ msg ++ "</p>").data, ?_⟩
    simp [errorBody, str_data_append, List.append_assoc]
  · refine ⟨("<!doctype html>" ++ "\n" ++ "<meta charset=\"utf-8\">" ++ "\n"
      ++ "<meta name=\"viewport\" content=\"width=device-width, initial-scale=1\">" ++ "\n"
      ++ "<style>html \x7b color-scheme: light dark; font: 16px system-ui; \x7d</style>" ++ "\n"
      ++ "<title>" ++ toString code ++ "</title>" ++ "\n"
      ++ "<h1>" ++ toString code ++ "</h1>" ++ "\n" ++ "<p>").data,
      ("</p>" : String).data, ?_⟩
    simp [errorBody, str_data_append, List.append_assoc]

/-! ### Listing escaping (claim C9) -/

/-- Every `&` in a character list begins one of the five entities emitted
by `escapeHtml` (so no stray ampersand survives escaping). -/
def ampEscaped : List Char → Bool
  | [] => true
  | c :: rest =>
    if c = '&' then
      ("amp;".data.isPrefixOf rest || "lt;".data.isPrefixOf rest
        || "gt;".data.isPrefixOf rest || "quot;".data.isPrefixOf rest
        || "#39;".data.isPrefixOf rest) && ampEscaped rest
    else ampEscaped rest

lemma escapeChar_eq (c : Char) :
    escapeChar c = "&amp;".data ∨ escapeChar c = "&lt;".data ∨ escapeChar c = "&gt;".data
    ∨ escapeChar c = "&quot;".data ∨ escapeChar c = "&#39;".data
    ∨ (escapeChar c = [c] ∧ c ≠ '&' ∧ c ≠ '<' ∧ c ≠ '>' ∧ c ≠ '"' ∧ c ≠ '\'') := by
  unfold escapeChar
  split_ifs with h1 h2 h3 h4 h5
  · exact Or.inl rfl
  · exact Or.inr (Or.inl rfl)
  · exact Or.inr (Or.inr (Or.inl rfl))
  · exact Or.inr (Or.inr (Or.inr (Or.inl rfl)))
  · exact Or.inr (Or.inr (Or.inr (Or.inr (Or.inl rfl))))
  · exact Or.inr (Or.inr (Or.inr (Or.inr (Or.inr ⟨rfl, h1, h2, h3, h4, h5⟩))))

lemma escList_no_special (cs : List Char) (c : Char)
    (hc : c = '<' ∨ c = '>' ∨ c = '"' ∨ c = '\'') :
    c ∉ (cs.map escapeChar).flatten := by
  induction cs with
  | nil => simp
  | cons a t ih =>
    simp only [List.map_cons, List.flatten_cons, List.mem_append]
    rintro (hmem | hmem)
    · rcases escapeChar_eq a with h | h | h | h | h | ⟨h, hne⟩ <;> rw [h] at hmem
      · rcases hc with rfl | rfl | rfl | rfl <;> exact absurd hmem (by decide)
      · rcases hc with rfl | rfl | rfl | rfl <;> exact absurd hmem (by decide)
      · rcases hc with rfl | rfl | rfl | rfl <;> exact absurd hmem (by decide)
      · rcases hc with rfl | rfl | rfl | rfl <;> exact absurd hmem (by decide)
      · rcases hc with rfl | rfl | rfl | rfl <;> exact absurd hmem (by decide)
      · have hca := List.mem_singleton.mp hmem
        subst hca
        rcases hc with h | h | h | h <;> simp_all
    · exact ih hmem

lemma escapeHtml_no_special (s : String) (c : Char)
    (hc : c = '<' ∨ c = '>' ∨ c = '"' ∨ c = '\'') :
    c ∉ (escapeHtml s).data :=
  escList_no_special s.data c hc

lemma ampEscaped_cons_not_amp (c : Char) (t : List Char) (h : c ≠ '&') :
    ampEscaped (c :: t) = ampEscaped t := by
  simp only [ampEscaped, if_neg h]

lemma ampEscaped_cons_amp (t : List Char) :
    ampEscaped ('&' :: t) =
      (("amp;".data.isPrefixOf t || "lt;".data.isPrefixOf t
        || "gt;".data.isPrefixOf t || "quot;".data.isPrefixOf t
        || "#39;".data.isPrefixOf t) && ampEscaped t) := by
  simp only [ampEscaped]
  simp

lemma ampEscaped_append_no_amp (pre t : List Char) (h : '&' ∉ pre) :
    ampEscaped (pre ++ t) = ampEscaped t := by
  induction pre with
  | nil => rfl
  | cons a p ih =>
    have ha : a ≠ '&' := fun hh => h (hh ▸ List.mem_cons_self a p)
    rw [List.cons_append, ampEscaped_cons_not_amp a _ ha,
      ih (fun hm => h (List.mem_cons_of_mem a hm))]

lemma ampEscaped_escList (cs : List Char) :
    ampEscaped (cs.map escapeChar).flatten = true := by
  induction cs with
  | nil => rfl
  | cons a t ih =>
    simp only [List.map_cons, List.flatten_cons]
    rcases escapeChar_eq a with h | h | h | h | h | ⟨h, hne, _⟩ <;> rw [h]
    · rw [show "&amp;".data ++ (t.map escapeChar).flatten
          = '&' :: ("amp;".data ++ (t.map escapeChar).flatten) from rfl,
        ampEscaped_cons_amp, ampEscaped_append_no_amp _ _ (by decide)]
      simp [isPrefixOf_append_left, ih]
    · rw [show "&lt;".data ++ (t.map escapeChar).flatten
          = '&' :: ("lt;".data ++ (t.map escapeChar).flatten) from rfl,
        ampEscaped_cons_amp, ampEscaped_append_no_amp _ _ (by decide)]
      simp [isPrefixOf_append_left, ih]
    · rw [show "&gt;".data ++ (t.map escapeChar).flatten
          = '&' :: ("gt;".data ++ (t.map escapeChar).flatten) from rfl,
        ampEscaped_cons_amp, ampEscaped_append_no_amp _ _ (by decide)]
      simp [isPrefixOf_append_left, ih]
    · rw [show "&quot;".data ++ (t.map escapeChar).flatten
          = '&' :: ("quot;".data ++ (t.map escapeChar).flatten) from rfl,
        ampEscaped_cons_amp, ampEscaped_append_no_amp _ _ (by decide)]
      simp [isPrefixOf_append_left, ih]
    · rw [show "&#39;".data ++ (t.map escapeChar).flatten
          = '&' :: ("#39;".data ++ (t.map escapeChar).flatten) from rfl,
        ampEscaped_cons_amp, ampEscaped_append_no_amp _ _ (by decide)]
      simp [isPrefixOf_append_left, ih]
    · rw [show ([a] ++ (t.map escapeChar).flatten)
          = a :: (t.map escapeChar).flatten from rfl,
        ampEscaped_cons_not_amp a _ hne]
      exact ih

lemma ampEscaped_escapeHtml (s : String) : ampEscaped (escapeHtml s).data = true :=
  ampEscaped_escList s.data

lemma getD_ne_of_not_mem {l : List Char} {d c : Char} (hl : c ∉ l) (hd : c ≠ d) :
    ∀ n, l.getD n d ≠ c := by
  induction l with
  | nil => exact fun n h => hd h.symm
  | cons a t ih =>
    intro n
    cases n with
    | zero =>
      intro h
      exact hl (by rw [← h]; exact List.mem_cons_self a t)
    | succ m =>
      exact ih (fun hm => hl (List.mem_cons_of_mem a hm)) m

lemma hexDigitU_ne {c : Char} (hl : c ∉ "0123456789ABCDEF".data) (hd : c ≠ '0')
    (n : Nat) : hexDigitU n ≠ c := by
  unfold hexDigitU
  exact getD_ne_of_not_mem hl hd n

lemma encodeURI_no_special (s : String) (c : Char) (hc : c = '<' ∨ c = '>') :
    c ∉ (encodeURI s).data := by
  rcases hc with rfl | rfl <;>
  · unfold encodeURI
    intro hmem
    rw [show ∀ l : List Char, (String.mk l).data = l from fun _ => rfl] at hmem
    rw [List.mem_flatten] at hmem
    obtain ⟨l, hl, hcl⟩ := hmem
    rw [List.mem_map] at hl
    obtain ⟨ch, _, rfl⟩ := hl
    by_cases hall : uriAllowed ch = true
    · rw [if_pos hall] at hcl
      have hce := List.mem_singleton.mp hcl
      rw [← hce] at hall
      exact absurd hall (by decide)
    · rw [if_neg hall] at hcl
      rw [List.mem_flatten] at hcl
      obtain ⟨pl, hpl, hcp⟩ := hcl
      rw [List.mem_map] at hpl
      obtain ⟨bt, _, rfl⟩ := hpl
      unfold pctEnc at hcp
      rcases List.mem_cons.mp hcp with h | h
      · exact absurd h (by decide)
      · rcases List.mem_cons.mp h with h | h
        · exact hexDigitU_ne (by decide) (by decide) (bt / 16) h.symm
        · rcases List.mem_cons.mp h with h | h
          · exact hexDigitU_ne (by decide) (by decide) (bt % 16) h.symm
          · exact absurd h (by simp)

lemma count_joinWith (c : Char) (hc : c ≠ '\n') :
    ∀ parts : List (List Char),
      (joinWith '\n' parts).count c = (parts.map (fun x => x.count c)).sum := by
  intro parts
  induction parts with
  | nil => simp [joinWith]
  | cons x t ih =>
    cases t with
    | nil => simp [joinWith]
    | cons y t2 =>
      rw [show joinWith '\n' (x :: y :: t2) = x ++ '\n' :: joinWith '\n' (y :: t2) from rfl]
      rw [List.count_append, List.count_cons]
      simp only [List.map_cons, List.sum_cons] at ih ⊢
      have hne : ¬ (('\n' : Char) == c) = true := by
        simp only [beq_iff_eq]
        exact fun hh => hc hh.symm
      rw [if_neg hne, ih]
      omega

lemma count_entryLine (c : Char) (hc : c = '<' ∨ c = '>') (rp : String) (it : DirEntry) :
    (entryLine rp it).data.count c = 4 + rp.data.count c := by
  have hesc : ((escapeHtml (it.name ++ (if it.isDirectory then "/" else ""))).data).count c = 0 :=
    List.count_eq_zero.mpr (escapeHtml_no_special _ c (by tauto))
  have henc : ((encodeURI (it.name ++ (if it.isDirectory then "/" else ""))).data).count c = 0 :=
    List.count_eq_zero.mpr (encodeURI_no_special _ c hc)
  unfold entryLine
  dsimp only
  rcases hc with rfl | rfl <;>
    simp [str_data_append, List.count_append, hesc, henc] <;>
    omega

lemma sum_count_entries (c : Char) (hc : c = '<' ∨ c = '>') (rp : String)
    (es : List DirEntry) :
    (((es.map (entryLine rp)).map String.data).map (fun x => x.count c)).sum
      = es.length * (4 + rp.data.count c) := by
  induction es with
  | nil => simp
  | cons e t ih =>
    simp only [List.map_cons, List.sum_cons, ih, List.length_cons]
    rw [count_entryLine c hc rp e, Nat.succ_mul]
    omega

/-- C9: the rendered directory listing page is markup-injection-free: the
number of `<` (and `>`) characters in the page depends only on the number
of entries (and the shared request path), never on the entry names or the
title text; and `escapeHtml` output never contains a raw `<`, `>`, `"` or
`'`, while every `&` in it starts one of the five HTML entities, so each
displayed name and the page title have all five special characters replaced
by entities. -/
theorem C9_listing_escapes_specials (dec : String → String) (e1 e2 : List DirEntry)
    (rp : String) (hlen : e1.length = e2.length) :
    (listDirectory dec e1 rp).data.count '<' = (listDirectory dec e2 rp).data.count '<' ∧
    (listDirectory dec e1 rp).data.count '>' = (listDirectory dec e2 rp).data.count '>' ∧
    (∀ s : String, '<' ∉ (escapeHtml s).data ∧ '>' ∉ (escapeHtml s).data ∧
      '"' ∉ (escapeHtml s).data ∧ '\'' ∉ (escapeHtml s).data) ∧
    (∀ s : String, ampEscaped (escapeHtml s).data = true) := by
  refine ⟨?_, ?_,
    fun s => ⟨escapeHtml_no_special s _ (by tauto), escapeHtml_no_special s _ (by tauto),
      escapeHtml_no_special s _ (by tauto), escapeHtml_no_special s _ (by tauto)⟩,
    ampEscaped_escapeHtml⟩
  · unfold listDirectory joinLines
    dsimp only
    rw [count_joinWith _ (by decide), count_joinWith _ (by decide)]
    simp only [List.map_append, List.sum_append]
    rw [sum_count_entries '<' (Or.inl rfl) _ e1, sum_count_entries '<' (Or.inl rfl) _ e2, hlen]
  · unfold listDirectory joinLines
    dsimp only
    rw [count_joinWith _ (by decide), count_joinWith _ (by decide)]
    simp only [List.map_append, List.sum_append]
    rw [sum_count_entries '>' (Or.inr rfl) _ e1, sum_count_entries '>' (Or.inr rfl) _ e2, hlen]

/-- Witness for C9 at concrete inputs: a listing whose single entry name
contains raw markup has the same markup-character counts as one with a
plain name. -/
theorem C9_witness :
    (listDirectory (fun s => s) [⟨"a<b>", false⟩] "/").data.count '<'
        = (listDirectory (fun s => s) [⟨"x", true⟩] "/").data.count '<' ∧
    (listDirectory (fun s => s) [⟨"a<b>", false⟩] "/").data.count '>'
        = (listDirectory (fun s => s) [⟨"x", true⟩] "/").data.count '>' ∧
    (∀ s : String, '<' ∉ (escapeHtml s).data ∧ '>' ∉ (escapeHtml s).data ∧
      '"' ∉ (escapeHtml s).data ∧ '\'' ∉ (escapeHtml s).data) ∧
    (∀ s : String, ampEscaped (escapeHtml s).data = true) :=
  C9_listing_escapes_specials (fun s => s) [⟨"a<b>", false⟩] [⟨"x", true⟩] "/" rfl

/-! ### Query strings are ignored (claim C10) -/

lemma takeWhile_eq_self_of_all {p : Char → Bool} {xs : List Char}
    (h : ∀ c ∈ xs, p c = true) : xs.takeWhile p = xs := by
  induction xs with
  | nil => rfl
  | cons a t ih =>
    rw [List.takeWhile_cons, h a (List.mem_cons_self a t),
      ih (fun c hc => h c (List.mem_cons_of_mem a hc))]
    rfl

lemma takeWhile_append_stop {p : Char → Bool} {xs : List Char}
    (h : ∀ c ∈ xs, p c = true) (y : Char) (hy : p y = false) (ys : List Char) :
    (xs ++ y :: ys).takeWhile p = xs := by
  induction xs with
  | nil => simp [List.takeWhile_cons, hy]
  | cons a t ih =>
    rw [List.cons_append, List.takeWhile_cons, h a (List.mem_cons_self a t),
      ih (fun c hc => h c (List.mem_cons_of_mem a hc))]
    rfl

lemma serveFile_url_irrelevant (pf : Platform) (m u u' : String)
    (inm ims rng : Option String) (fp : String) (content : List Nat)
    (st : JsStats) (opts : Opts) :
    serveFile pf ⟨m, u, inm, ims, rng⟩ fp content st opts
      = serveFile pf ⟨m, u', inm, ims, rng⟩ fp content st opts := rfl

/-- C10: the query string of a request URL never influences the response:
for every method, headers, and path `P` free of `?` and `#`, the response
to `P ++ "?" ++ Q` equals the response to `P`, because the handler uses
only the URL's pathname (everything before the first `?` or `#`). -/
theorem C10_query_string_ignored (pf : Platform) (fsx : FS) (opts : Opts)
    (root m P Q : String) (inm ims rng : Option String)
    (hP : ∀ c ∈ P.data, c ≠ '?' ∧ c ≠ '#') :
    handler pf fsx opts root ⟨m, P ++ "?" ++ Q, inm, ims, rng⟩
      = handler pf fsx opts root ⟨m, P, inm, ims, rng⟩ := by
  have hall : ∀ c ∈ P.data, (!(c = '?' || c = '#') : Bool) = true := by
    intro c hc
    have h12 := hP c hc
    simp [h12.1, h12.2]
  have hpath : urlPathname (P ++ "?" ++ Q) = urlPathname P := by
    unfold urlPathname
    have h1 : (P ++ "?" ++ Q).data = P.data ++ '?' :: Q.data := by
      simp [str_data_append, List.append_assoc, show "?".data = ['?'] from rfl]
    rw [h1, takeWhile_append_stop hall '?' (by decide) Q.data,
      takeWhile_eq_self_of_all hall]
  unfold handler
  dsimp only
  rw [hpath]
  rfl

/-- A small filesystem with one file `/r/a.txt` of three bytes, used for
the C10 witness. -/
def fixFS : FS where
  stat := fun p => if p = "/r/a.txt" then some ⟨3, 7, false⟩ else none
  fileExists := fun p => p == "/r/a.txt"
  content := fun p => if p = "/r/a.txt" then [97, 98, 99] else []
  readdir := fun _ => none

/-- Witness for C10 at a concrete input: appending `?x=1` to `/a.txt` does
not change the response. -/
theorem C10_witness :
    handler trivPlatform fixFS ⟨true, true, 0⟩ "/r"
        ⟨"GET", "/a.txt" ++ "?" ++ "x=1", none, none, none⟩
      = handler trivPlatform fixFS ⟨true, true, 0⟩ "/r"
        ⟨"GET", "/a.txt", none, none, none⟩ :=
  C10_query_string_ignored trivPlatform fixFS ⟨true, true, 0⟩ "/r" "GET" "/a.txt" "x=1"
    none none none (by decide)

/-! ### SPA fallback (claim C3) -/

/-- A small filesystem with only a root `index.html` of two bytes, used for
the C3 counterexample and witness. -/
def spaFS : FS where
  stat := fun p => if p = "/r/index.html" then some ⟨2, 5, false⟩ else none
  fileExists := fun p => p == "/r/index.html"
  content := fun p => if p = "/r/index.html" then [104, 105] else []
  readdir := fun _ => none

/-- C3 counterexample: with SPA mode on and a nonexistent path, the
fallback `index.html` is served through the ordinary file-serving path, so
a request carrying `Range: bytes=0-0` is answered 206, not 200 — refuting
the claim that the fallback always yields status 200. -/
theorem C3_counterexample_spa_range_206 :
    safeJoin "/r" (urlPathname "/nope") = some "/r/nope" ∧
    spaFS.stat "/r/nope" = none ∧
    spaFS.fileExists (pathJoin "/r" "index.html") = true ∧
    (handler trivPlatform spaFS ⟨true, true, 0⟩ "/r"
        ⟨"GET", "/nope", none, none, some "bytes=0-0"⟩).status = 206 ∧
    (handler trivPlatform spaFS ⟨true, true, 0⟩ "/r"
        ⟨"GET", "/nope", none, none, some "bytes=0-0"⟩).status ≠ 200 := by
  decide

/-- C3 (amended): with SPA mode enabled, for every request whose path
resolves safely but does not exist, when the root `index.html` exists (and
stats successfully) the server serves the root `index.html` as a file,
regardless of the original non-existent path; absent conditional and Range
headers that status is 200 and the body is the file's content (empty for
HEAD).  Conditional and Range headers are still honored against
`index.html` itself (see the counterexample), which is the only deviation
from the claim. -/
theorem C3_spa_fallback_serves_index (pf : Platform) (fsx : FS) (opts : Opts)
    (root m u ap : String) (ist : JsStats)
    (hspa : opts.spa = true)
    (hsj : safeJoin root (urlPathname u) = some ap)
    (hstat : fsx.stat ap = none)
    (hex : fsx.fileExists (pathJoin root "index.html") = true)
    (hist : fsx.stat (pathJoin root "index.html") = some ist)
    (hlen : (fsx.content (pathJoin root "index.html")).length = ist.size) :
    (handler pf fsx opts root ⟨m, u, none, none, none⟩).status = 200 ∧
    (handler pf fsx opts root ⟨m, u, none, none, none⟩).body
      = (if m = "HEAD" then [] else fsx.content (pathJoin root "index.html")) ∧
    ("Content-Length", toString ist.size)
      ∈ (handler pf fsx opts root ⟨m, u, none, none, none⟩).headers := by
  unfold handler
  dsimp only
  rw [hsj]
  dsimp only
  rw [hstat]
  dsimp only
  rw [if_pos hspa, if_pos hex, hist]
  dsimp only
  unfold serveFile
  dsimp only
  rw [show shouldSend304 pf.parseDate none none
      (etagFromStats ist) ist.mtimeMs = false from rfl]
  rw [if_neg (by simp)]
  rw [show rangeEval none ist.size = RangeResult.notPresent from rfl]
  dsimp only
  have hbody : (fsx.content (pathJoin root "index.html")).take ist.size
      = fsx.content (pathJoin root "index.html") := by
    rw [← hlen]
    exact List.take_length _
  rw [hbody]
  exact ⟨rfl, rfl, by simp⟩

/-- Witness for C3 at a concrete input: a GET for the nonexistent `/nope`
with no conditional or Range headers serves the fallback `index.html` with
status 200 and its full two-byte body. -/
theorem C3_witness :
    (handler trivPlatform spaFS ⟨true, true, 0⟩ "/r"
        ⟨"GET", "/nope", none, none, none⟩).status = 200 ∧
    (handler trivPlatform spaFS ⟨true, true, 0⟩ "/r"
        ⟨"GET", "/nope", none, none, none⟩).body
      = (if "GET" = "HEAD" then [] else spaFS.content (pathJoin "/r" "index.html")) ∧
    ("Content-Length", toString (2 : Nat))
      ∈ (handler trivPlatform spaFS ⟨true, true, 0⟩ "/r"
        ⟨"GET", "/nope", none, none, none⟩).headers :=
  C3_spa_fallback_serves_index trivPlatform spaFS ⟨true, true, 0⟩ "/r" "GET" "/nope"
    "/r/nope" ⟨2, 5, false⟩ rfl (by decide) (by decide) (by decide) (by decide) (by decide)

/-! ### Double-percent-encoding (claim C2) -/

/-- C2 counterexample: the literal claim fails because of the sibling-escape
bug of C1: a request path that contains the double-encoded sequence
`%252e%252e` but also a plain `..` sibling hop is accepted by `safeJoin`
yet resolves outside the root. -/
theorem C2_counterexample_other_traversal_escapes :
    safeJoin "/r" "/../r-evil/%252e%252e" = some "/r-evil/%2e%2e" ∧
    ("%252e%252e".data <:+: "/../r-evil/%252e%252e".data) ∧
    isUnderB "/r" "/r-evil/%2e%2e" = false := by
  refine ⟨by decide, ⟨"/../r-evil/".data, [], by decide⟩, by decide⟩

lemma pctTokens_cons_not_pct {c : Char} (h : c ≠ '%') (cs : List Char) :
    pctTokens (c :: cs) = (pctTokens cs).map (Sum.inl c :: ·) := by
  rw [pctTokens.eq_def]
  try dsimp only
  rw [if_neg h]

lemma pctTokens_pct25 (cs : List Char) :
    pctTokens ('%' :: '2' :: '5' :: cs) = (pctTokens cs).map (Sum.inr 37 :: ·) := by
  rw [pctTokens.eq_def]
  try dsimp only
  rw [if_pos rfl]
  try dsimp only
  rw [show hex2 '2' '5' = some 37 from by decide]

lemma pctTokens_no_pct {xs : List Char} (h : ∀ c ∈ xs, c ≠ '%') :
    pctTokens xs = some (xs.map Sum.inl) := by
  induction xs with
  | nil => rfl
  | cons a t ih =>
    rw [pctTokens_cons_not_pct (h a (List.mem_cons_self a t)),
      ih (fun c hc => h c (List.mem_cons_of_mem a hc))]
    rfl

lemma pctTokens_append_no_pct {xs : List Char} (h : ∀ c ∈ xs, c ≠ '%')
    (ys : List Char) :
    pctTokens (xs ++ ys) = (pctTokens ys).map (xs.map Sum.inl ++ ·) := by
  induction xs with
  | nil => simp
  | cons a t ih =>
    rw [List.cons_append, pctTokens_cons_not_pct (h a (List.mem_cons_self a t)),
      ih (fun c hc => h c (List.mem_cons_of_mem a hc)), Option.map_map]
    rfl

lemma utf8Fold_inl (c : Char) (ts : List (Char ⊕ Nat)) :
    utf8Fold 0 0 0 (Sum.inl c :: ts) = (utf8Fold 0 0 0 ts).map (c :: ·) := by
  rw [utf8Fold.eq_def]
  try dsimp only
  rw [if_pos rfl]

lemma utf8Fold_inr_ascii (b : Nat) (hb : b < 0x80) (ts : List (Char ⊕ Nat)) :
    utf8Fold 0 0 0 (Sum.inr b :: ts) = (utf8Fold 0 0 0 ts).map (Char.ofNat b :: ·) := by
  rw [utf8Fold.eq_def]
  try dsimp only
  rw [if_pos rfl]
  try dsimp only
  rw [if_pos hb]

lemma utf8Fold_all_inl (xs : List Char) :
    utf8Fold 0 0 0 (xs.map Sum.inl) = some xs := by
  induction xs with
  | nil => rfl
  | cons a t ih =>
    rw [List.map_cons, utf8Fold_inl, ih]
    rfl

lemma utf8Fold_append_inl (xs : List Char) (ts : List (Char ⊕ Nat)) :
    utf8Fold 0 0 0 (xs.map Sum.inl ++ ts) = (utf8Fold 0 0 0 ts).map (xs ++ ·) := by
  induction xs with
  | nil => simp
  | cons a t ih =>
    rw [List.map_cons, List.cons_append, utf8Fold_inl, ih, Option.map_map]
    rfl

lemma decodeChars_no_pct {xs : List Char} (h : ∀ c ∈ xs, c ≠ '%') :
    decodeChars xs = some xs := by
  unfold decodeChars
  rw [pctTokens_no_pct h]
  show utf8Fold 0 0 0 (xs.map Sum.inl) = some xs
  exact utf8Fold_all_inl xs

lemma decodeChars_append_no_pct {xs : List Char} (h : ∀ c ∈ xs, c ≠ '%')
    (ys : List Char) :
    decodeChars (xs ++ ys) = (decodeChars ys).map (xs ++ ·) := by
  unfold decodeChars
  rw [pctTokens_append_no_pct h ys]
  cases hys : pctTokens ys with
  | none => rfl
  | some ts =>
    show utf8Fold 0 0 0 (xs.map Sum.inl ++ ts) = (utf8Fold 0 0 0 ts).map (xs ++ ·)
    exact utf8Fold_append_inl xs ts

lemma pctTokens_252e252e (cs : List Char) :
    pctTokens ("%252e%252e".data ++ cs)
      = (pctTokens cs).map (fun t =>
          [Sum.inr 37, Sum.inl '2', Sum.inl 'e', Sum.inr 37, Sum.inl '2', Sum.inl 'e'] ++ t) := by
  rw [show "%252e%252e".data ++ cs
      = '%' :: '2' :: '5' :: ('2' :: 'e' :: '%' :: '2' :: '5' :: ('2' :: 'e' :: cs)) from rfl]
  rw [pctTokens_pct25, pctTokens_cons_not_pct (by decide),
    pctTokens_cons_not_pct (by decide), pctTokens_pct25,
    pctTokens_cons_not_pct (by decide), pctTokens_cons_not_pct (by decide)]
  simp only [Option.map_map]
  rfl

lemma utf8Fold_252e252e (ts : List (Char ⊕ Nat)) :
    utf8Fold 0 0 0
        ([Sum.inr 37, Sum.inl '2', Sum.inl 'e', Sum.inr 37, Sum.inl '2', Sum.inl 'e'] ++ ts)
      = (utf8Fold 0 0 0 ts).map (fun l => "%2e%2e".data ++ l) := by
  rw [show ([Sum.inr 37, Sum.inl '2', Sum.inl 'e', Sum.inr 37, Sum.inl '2', Sum.inl 'e'] ++ ts
        : List (Char ⊕ Nat))
      = Sum.inr 37 :: Sum.inl '2' :: Sum.inl 'e'
        :: Sum.inr 37 :: Sum.inl '2' :: Sum.inl 'e' :: ts from rfl]
  rw [utf8Fold_inr_ascii 37 (by norm_num), utf8Fold_inl, utf8Fold_inl,
    utf8Fold_inr_ascii 37 (by norm_num), utf8Fold_inl, utf8Fold_inl]
  simp only [Option.map_map]
  rfl

lemma decode_252e252e (cs : List Char) :
    decodeChars ("%252e%252e".data ++ cs)
      = (decodeChars cs).map (fun l => "%2e%2e".data ++ l) := by
  unfold decodeChars
  rw [pctTokens_252e252e]
  cases hcs : pctTokens cs with
  | none => rfl
  | some ts =>
    show utf8Fold 0 0 0
        ([Sum.inr 37, Sum.inl '2', Sum.inl 'e', Sum.inr 37, Sum.inl '2', Sum.inl 'e'] ++ ts)
      = (utf8Fold 0 0 0 ts).map (fun l => "%2e%2e".data ++ l)
    exact utf8Fold_252e252e ts

/-- A single decode pass maps the double-encoded `%252e%252e` to the
literal text `%2e%2e` in any percent-free context. -/
lemma decodeURIComponent_double_encoded (s1 s2 : String)
    (h1 : ∀ c ∈ s1.data, c ≠ '%') (h2 : ∀ c ∈ s2.data, c ≠ '%') :
    decodeURIComponent (s1 ++ "%252e%252e" ++ s2) = some (s1 ++ "%2e%2e" ++ s2) := by
  unfold decodeURIComponent
  have hd : (s1 ++ "%252e%252e" ++ s2).data
      = s1.data ++ ("%252e%252e".data ++ s2.data) := by
    simp [str_data_append, List.append_assoc]
  rw [hd, decodeChars_append_no_pct h1, decode_252e252e, decodeChars_no_pct h2]
  show some (String.mk (s1.data ++ ("%2e%2e".data ++ s2.data)))
    = some (s1 ++ "%2e%2e" ++ s2)
  congr 1
  have hd2 : (s1 ++ "%2e%2e" ++ s2).data
      = s1.data ++ ("%2e%2e".data ++ s2.data) := by
    simp [str_data_append, List.append_assoc]
  calc String.mk (s1.data ++ ("%2e%2e".data ++ s2.data))
      = String.mk ((s1 ++ "%2e%2e" ++ s2).data) := by rw [hd2]
    _ = s1 ++ "%2e%2e" ++ s2 := rfl

lemma isPrefixOfL_append_left (l m : List (List Char)) : l.isPrefixOf (l ++ m) = true := by
  induction l with
  | nil => simp [List.isPrefixOf]
  | cons a as ih => simp [List.isPrefixOf, ih]

lemma foldl_normStep_mem : ∀ (xs acc : List (List Char)) (s : List Char),
    s ∈ xs.foldl normStep acc → s ∈ acc ∨ s ∈ xs := by
  intro xs
  induction xs with
  | nil => exact fun acc s h => Or.inl h
  | cons x t ih =>
    intro acc s h
    rw [List.foldl_cons] at h
    rcases ih (normStep acc x) s h with h2 | h2
    · unfold normStep at h2
      split_ifs at h2
      · exact Or.inl h2
      · exact Or.inl ((List.dropLast_prefix acc).subset h2)
      · rcases List.mem_append.mp h2 with h3 | h3
        · exact Or.inl h3
        · exact Or.inr (by rw [List.mem_singleton.mp h3]; exact List.mem_cons_self x t)
    · exact Or.inr (List.mem_cons_of_mem x h2)

lemma foldl_normStep_ordinary : ∀ (xs acc : List (List Char)),
    (∀ s ∈ acc, s ≠ [] ∧ s ≠ ['.'] ∧ s ≠ ['.', '.']) →
    ∀ s ∈ xs.foldl normStep acc, s ≠ [] ∧ s ≠ ['.'] ∧ s ≠ ['.', '.'] := by
  intro xs
  induction xs with
  | nil => exact fun acc h s hs => h s hs
  | cons x t ih =>
    intro acc hacc s hs
    rw [List.foldl_cons] at hs
    refine ih (normStep acc x) ?_ s hs
    intro y hy
    unfold normStep at hy
    split_ifs at hy with h1 h2
    · exact hacc y hy
    · exact hacc y ((List.dropLast_prefix acc).subset hy)
    · rcases List.mem_append.mp hy with h3 | h3
      · exact hacc y h3
      · rw [List.mem_singleton.mp h3]
        refine ⟨fun he => h1 (Or.inl he), fun he => h1 (Or.inr he), h2⟩

lemma normSegs_props (xs : List (List Char)) :
    ∀ s ∈ normSegs xs, s ≠ [] ∧ s ≠ ['.'] ∧ s ≠ ['.', '.'] :=
  foldl_normStep_ordinary xs [] (by simp)

lemma foldl_normStep_no_dotdot : ∀ (ys : List (List Char)),
    (∀ s ∈ ys, s ≠ ['.', '.']) →
    ∀ acc, ys.foldl normStep acc = acc ++ ys.foldl normStep [] := by
  intro ys
  induction ys with
  | nil => intro _ acc; simp
  | cons y t ih =>
    intro h acc
    rw [List.foldl_cons, List.foldl_cons,
      ih (fun s hs => h s (List.mem_cons_of_mem y hs)) (normStep acc y),
      ih (fun s hs => h s (List.mem_cons_of_mem y hs)) (normStep [] y)]
    have hstep : normStep acc y = acc ++ normStep [] y := by
      unfold normStep
      split_ifs with h1 h2
      · simp
      · exact absurd h2 (h y (List.mem_cons_self y t))
      · simp
    rw [hstep, List.append_assoc]

lemma normSegs_of_ordinary : ∀ (parts : List (List Char)),
    (∀ s ∈ parts, s ≠ [] ∧ s ≠ ['.'] ∧ s ≠ ['.', '.']) → normSegs parts = parts := by
  intro parts
  induction parts with
  | nil => intro _; rfl
  | cons p t ih =>
    intro h
    have hp := h p (List.mem_cons_self p t)
    unfold normSegs
    rw [List.foldl_cons,
      foldl_normStep_no_dotdot t (fun s hs => (h s (List.mem_cons_of_mem p hs)).2.2)
        (normStep [] p)]
    have hstep : normStep [] p = [p] := by
      unfold normStep
      rw [if_neg (by rintro (he | he); exacts [hp.1 he, hp.2.1 he]), if_neg hp.2.2]
      rfl
    rw [hstep]
    have ihe := ih (fun s hs => h s (List.mem_cons_of_mem p hs))
    unfold normSegs at ihe
    rw [ihe]
    rfl

lemma normSegs_cons_nil (parts : List (List Char)) :
    normSegs ([] :: parts) = normSegs parts := by
  unfold normSegs
  rw [List.foldl_cons]
  rfl

lemma splitOnChar_ne_nil (sep : Char) (cs : List Char) : splitOnChar sep cs ≠ [] := by
  induction cs with
  | nil => simp [splitOnChar]
  | cons c cs ih =>
    unfold splitOnChar
    dsimp only
    split_ifs <;> simp

lemma splitOnChar_cons_sep (sep : Char) (cs : List Char) :
    splitOnChar sep (sep :: cs) = [] :: splitOnChar sep cs := by
  rw [splitOnChar.eq_def]
  try dsimp only
  rw [if_pos rfl]

lemma splitOnChar_no_sep (sep : Char) : ∀ (cs : List Char), ∀ s ∈ splitOnChar sep cs, sep ∉ s := by
  intro cs
  induction cs with
  | nil =>
    intro s hs
    rw [show splitOnChar sep [] = [[]] from rfl] at hs
    rw [List.mem_singleton.mp hs]
    simp
  | cons c cs ih =>
    intro s hs
    unfold splitOnChar at hs
    dsimp only at hs
    by_cases hc : c = sep
    · rw [if_pos hc] at hs
      rcases List.mem_cons.mp hs with h | h
      · rw [h]; simp
      · exact ih s h
    · rw [if_neg hc] at hs
      rcases List.mem_cons.mp hs with h | h
      · rw [h]
        intro hm
        rcases List.mem_cons.mp hm with h2 | h2
        · exact hc h2.symm
        · cases hsp : splitOnChar sep cs with
          | nil => exact splitOnChar_ne_nil sep cs hsp
          | cons a t =>
            rw [hsp] at h2
            exact ih a (by rw [hsp]; exact List.mem_cons_self a t) h2
      · cases hsp : splitOnChar sep cs with
        | nil => exact absurd hsp (splitOnChar_ne_nil sep cs)
        | cons a t =>
          rw [hsp] at h
          simp only [List.tail_cons] at h
          exact ih s (by rw [hsp]; exact List.mem_cons_of_mem a h)

lemma joinWith_cons2 (sep : Char) (x y : List Char) (t : List (List Char)) :
    joinWith sep (x :: y :: t) = x ++ sep :: joinWith sep (y :: t) := by
  rw [joinWith.eq_def]

lemma joinWith_append (sep : Char) : ∀ (a b : List (List Char)), a ≠ [] → b ≠ [] →
    joinWith sep (a ++ b) = joinWith sep a ++ sep :: joinWith sep b := by
  intro a
  induction a with
  | nil => intro b h; exact absurd rfl h
  | cons x t ih =>
    intro b _ hb
    cases t with
    | nil =>
      cases b with
      | nil => exact absurd rfl hb
      | cons y u =>
        rw [show ([x] ++ y :: u : List (List Char)) = x :: y :: u from rfl,
          joinWith_cons2]
        rfl
    | cons x2 t2 =>
      rw [show ((x :: x2 :: t2) ++ b : List (List Char)) = x :: ((x2 :: t2) ++ b) from rfl]
      rw [show ((x2 :: t2) ++ b : List (List Char)) = x2 :: (t2 ++ b) from rfl,
        joinWith_cons2,
        show (x2 :: (t2 ++ b) : List (List Char)) = (x2 :: t2) ++ b from rfl,
        ih b (by simp) hb, joinWith_cons2, List.append_assoc]
      simp

lemma splitOnChar_joinWith (sep : Char) : ∀ (parts : List (List Char)), parts ≠ [] →
    (∀ s ∈ parts, sep ∉ s) → splitOnChar sep (joinWith sep parts) = parts := by
  intro parts
  induction parts with
  | nil => intro h; exact absurd rfl h
  | cons x t ih =>
    intro _ hns
    cases t with
    | nil =>
      rw [show joinWith sep [x] = x from rfl]
      exact splitOnChar_of_not_mem (hns x (List.mem_cons_self x []))
    | cons y u =>
      rw [joinWith_cons2,
        splitOnChar_append_sep _ (hns x (List.mem_cons_self x (y :: u))),
        ih (by simp) (fun s hs => hns s (List.mem_cons_of_mem x hs))]

lemma pathSegs_mk_renderAbs (parts : List (List Char))
    (h : ∀ s ∈ parts, s ≠ [] ∧ s ≠ ['.'] ∧ s ≠ ['.', '.'] ∧ '/' ∉ s) :
    pathSegs (String.mk (renderAbs parts)) = parts := by
  unfold pathSegs renderAbs
  rw [show (String.mk ('/' :: joinWith '/' parts)).data = '/' :: joinWith '/' parts from rfl,
    splitOnChar_cons_sep]
  cases parts with
  | nil => rfl
  | cons x t =>
    rw [splitOnChar_joinWith '/' (x :: t) (by simp)
        (fun s hs => (h s hs).2.2.2),
      normSegs_cons_nil]
    exact normSegs_of_ordinary (x :: t)
      (fun s hs => ⟨(h s hs).1, (h s hs).2.1, (h s hs).2.2.1⟩)

lemma renderAbs_isPrefixOf_append (R Rel : List (List Char)) :
    (renderAbs R).isPrefixOf (renderAbs (R ++ Rel)) = true := by
  cases Rel with
  | nil =>
    rw [List.append_nil]
    have := isPrefixOf_append_left (renderAbs R) []
    rwa [List.append_nil] at this
  | cons y u =>
    cases R with
    | nil => simp [renderAbs, List.isPrefixOf, joinWith]
    | cons x t =>
      unfold renderAbs
      rw [joinWith_append '/' (x :: t) (y :: u) (by simp) (by simp),
        show ('/' :: (joinWith '/' (x :: t) ++ '/' :: joinWith '/' (y :: u)))
          = ('/' :: joinWith '/' (x :: t)) ++ ('/' :: joinWith '/' (y :: u)) from rfl]
      exact isPrefixOf_append_left ..

/-- C2 (amended): the resolver performs exactly one percent-decode pass, so
`%252e%252e` decodes to the literal text `%2e%2e` and is treated as an
ordinary filename component, never as a `..` traversal segment; and
provided the decoded request path contains no `..` path component of its
own (the sibling-escape bug of C1 is a separate flaw), the resolved path is
accepted and stays inside the root as a path-component descendant. -/
theorem C2_single_decode_literal_component (root s1 s2 : String)
    (hroot : String.mk (renderAbs (pathSegs root)) = root)
    (h1p : ∀ c ∈ s1.data, c ≠ '%') (h2p : ∀ c ∈ s2.data, c ≠ '%')
    (h1n : '\x00' ∉ s1.data) (h2n : '\x00' ∉ s2.data)
    (hseg : ∀ s ∈ splitOnChar '/' ('.' :: (s1.data ++ ("%2e%2e".data ++ s2.data))),
      s ≠ ['.', '.']) :
    decodeURIComponent (s1 ++ "%252e%252e" ++ s2) = some (s1 ++ "%2e%2e" ++ s2) ∧
    ∃ r, safeJoin root (s1 ++ "%252e%252e" ++ s2) = some r ∧ isUnderB root r = true := by
  have hdec := decodeURIComponent_double_encoded s1 s2 h1p h2p
  refine ⟨hdec, ?_⟩
  unfold safeJoin
  rw [hdec]
  dsimp only
  have hdata : (s1 ++ "%2e%2e" ++ s2).data = s1.data ++ ("%2e%2e".data ++ s2.data) := by
    simp [str_data_append, List.append_assoc]
  have hnl : stripNul (s1 ++ "%2e%2e" ++ s2).data = (s1 ++ "%2e%2e" ++ s2).data := by
    unfold stripNul
    rw [List.filter_eq_self]
    intro c hc
    rw [hdata] at hc
    have hmid : ∀ c ∈ "%2e%2e".data, c ≠ '\x00' := by decide
    have hcne : c ≠ '\x00' := by
      rcases List.mem_append.mp hc with h | h
      · exact fun he => h1n (he ▸ h)
      · rcases List.mem_append.mp h with h | h
        · exact hmid c h
        · exact fun he => h2n (he ▸ h)
    simp [hcne]
  rw [hnl, show String.mk ((s1 ++ "%2e%2e" ++ s2).data) = s1 ++ "%2e%2e" ++ s2 from rfl]
  unfold pathResolve
  set d := s1 ++ "%2e%2e" ++ s2 with hd
  have hdd : ("." ++ d).data = '.' :: d.data := rfl
  have hrel : splitOnChar '/' ("." ++ d).data
      = splitOnChar '/' ('.' :: (s1.data ++ ("%2e%2e".data ++ s2.data))) := by
    rw [hdd, hd, hdata]
  set R := pathSegs root with hR
  set Rel := normSegs (splitOnChar '/' ("." ++ d).data) with hRel
  have hrootdata : renderAbs R = root.data := congrArg String.data hroot
  have hcombined : normSegs (splitOnChar '/' root.data ++ splitOnChar '/' ("." ++ d).data)
      = R ++ Rel := by
    unfold normSegs
    rw [List.foldl_append,
      foldl_normStep_no_dotdot _ (by rw [hrel]; exact hseg) _]
    rfl
  rw [hcombined]
  have hRprops : ∀ s ∈ R, s ≠ [] ∧ s ≠ ['.'] ∧ s ≠ ['.', '.'] :=
    normSegs_props (splitOnChar '/' root.data)
  have hRelprops : ∀ s ∈ Rel, s ≠ [] ∧ s ≠ ['.'] ∧ s ≠ ['.', '.'] :=
    normSegs_props (splitOnChar '/' ("." ++ d).data)
  have hRslash : ∀ s ∈ R, '/' ∉ s := by
    intro s hs
    rcases foldl_normStep_mem (splitOnChar '/' root.data) [] s hs with h | h
    · cases h
    · exact splitOnChar_no_sep '/' root.data s h
  have hRelslash : ∀ s ∈ Rel, '/' ∉ s := by
    intro s hs
    rcases foldl_normStep_mem (splitOnChar '/' ("." ++ d).data) [] s hs with h | h
    · cases h
    · exact splitOnChar_no_sep '/' ("." ++ d).data s h
  have hpref : root.data.isPrefixOf (String.mk (renderAbs (R ++ Rel))).data = true := by
    rw [show (String.mk (renderAbs (R ++ Rel))).data = renderAbs (R ++ Rel) from rfl,
      ← hrootdata]
    exact renderAbs_isPrefixOf_append R Rel
  rw [if_pos hpref]
  refine ⟨String.mk (renderAbs (R ++ Rel)), rfl, ?_⟩
  unfold isUnderB
  rw [pathSegs_mk_renderAbs (R ++ Rel) ?_]
  · exact isPrefixOfL_append_left R Rel
  · intro s hs
    rcases List.mem_append.mp hs with h | h
    · exact ⟨(hRprops s h).1, (hRprops s h).2.1, (hRprops s h).2.2, hRslash s h⟩
    · exact ⟨(hRelprops s h).1, (hRelprops s h).2.1, (hRelprops s h).2.2, hRelslash s h⟩

/-- Witness for C2 at a concrete input: under root `/r`, the request path
`/a%252e%252e/b` decodes once to `/a%2e%2e/b` and resolves to a descendant
of the root. -/
theorem C2_witness :
    decodeURIComponent ("/a" ++ "%252e%252e" ++ "/b") = some ("/a" ++ "%2e%2e" ++ "/b") ∧
    ∃ r, safeJoin "/r" ("/a" ++ "%252e%252e" ++ "/b") = some r ∧ isUnderB "/r" r = true :=
  C2_single_decode_literal_component "/r" "/a" "/b" (by decide) (by decide) (by decide)
    (by decide) (by decide) (by decide)

end Srf
